import Mathlib

/-!
Shallow embedding of the hierarchical chunking engine of `hierarchical_indexer.py`
(class `HierarchicalChunker`), together with proofs of the specification claims.

Conventions of the embedding:
* file text is a `List Char`; positions are `Nat` offsets into that list;
* Python `int` state that the source allows to leave `Nat` range
  (the sliding-window cursor, brace counters) is `Int`;
* Python's `hashlib.md5(...).hexdigest()` is an external library call, modelled by
  an explicit function parameter `md5hex : String → String` threaded through every
  chunk constructor (the claims depend only on which string is hashed, never on
  the hash's internals);
* the regular-expression patterns are compiled by hand into deterministic matchers;
  each spot where Python's backtracking engine could explore several branches is
  either written as an ordered alternative (`<|>`) in the same preference order, or
  collapsed to maximal munch where the adjacent character classes are disjoint so
  no shorter choice can succeed;
* Python `\w` and `\s` are modelled over ASCII.
-/

namespace CwVDB

/-- Python `\s` / `str.strip` whitespace over ASCII: space, tab, LF, CR, VT, FF. -/
def isPyWs (c : Char) : Bool :=
  c = ' ' || c = '\t' || c = '\n' || c = '\r' || c = '\x0b' || c = '\x0c'

/-- Python regex `\w` over ASCII: letters, digits, underscore. -/
def isWordChar (c : Char) : Bool :=
  c.isAlphanum || c = '_'

/-- Character class `[\w:]` used by `FUNCTION_PATTERN`. -/
def isWordColon (c : Char) : Bool :=
  isWordChar c || c = ':'

/-- Character class `[\w:,\s]` used by `CLASS_PATTERN`'s inheritance clause. -/
def isInheritChar (c : Char) : Bool :=
  isWordChar c || c = ':' || c = ',' || isPyWs c

/-- Python `str.strip()`: drop leading and trailing whitespace. -/
def pyStrip (l : List Char) : List Char :=
  ((l.dropWhile isPyWs).reverse.dropWhile isPyWs).reverse

/-- Python `content.split('\n')`: always returns at least one element. -/
def splitNl : List Char → List (List Char)
  | [] => [[]]
  | c :: rest =>
    if c = '\n' then [] :: splitNl rest
    else
      match splitNl rest with
      | g :: gs => (c :: g) :: gs
      | [] => [[c]]

/-- Python `'\n'.join(lines)`. -/
def joinNl : List (List Char) → List Char
  | [] => []
  | [l] => l
  | l :: rest => l ++ '\n' :: joinNl rest

/-- Python `s.count('\n')`. -/
def countNl (l : List Char) : Nat :=
  l.count '\n'

/-- Python `content[a:b]` for `0 ≤ a ≤ b` (clamping at the ends like Python). -/
def listSub (l : List Char) (a b : Nat) : List Char :=
  (l.take b).drop a

/-- Clamp one Python slice index (possibly negative) to `[0, len]`. -/
def pySliceIdx (len : Nat) (i : Int) : Nat :=
  if i < 0 then ((len : Int) + i).toNat else min i.toNat len

/-- Python `l[a:b]` with full slice semantics for `Int` indices. -/
def pySlice {α : Type} (l : List α) (a b : Int) : List α :=
  (l.take (pySliceIdx l.length b)).drop (pySliceIdx l.length a)

/-- Python `pathlib.Path.name`: the final `/`-separated component. -/
def pathName (fp : String) : String :=
  match (fp.toList.reverse.takeWhile (fun c => c ≠ '/')).reverse with
  | [] => ""
  | l => String.mk l

/-- Consume a literal string, returning the rest of the input on success. -/
def stripLit (pat : List Char) (l : List Char) : Option (List Char) :=
  if pat.isPrefixOf l then some (l.drop pat.length) else none

/-- Maximal run of `\s` (regex `\s*`). -/
def dropWs (l : List Char) : List Char :=
  l.dropWhile isPyWs

/-- Regex `\{` (the single mandatory closing token of both structural patterns). -/
def braceTok (l : List Char) : Option (List Char) :=
  match l with
  | c :: rest => if c = '\x7b' then some rest else none
  | [] => none

/-!
### FUNCTION_PATTERN
`(?:[\w:]+\s+)?(?:[\w:]+\s+)?(\w+)\s*\([^)]*\)\s*(?:const)?\s*(?:override)?\s*\{`

`[\w:]+\s+` is maximal munch: `[\w:]` and `\s` are disjoint and the tokens that
follow each run start with a non-`\s`, non-`[\w:]` character respectively, so no
shorter split can succeed. The optional groups are ordered alternatives. The
attempt "first group empty, second group matched" consumes exactly the same
input as "first matched, second empty", so two block attempts suffice.
-/

/-- One `[\w:]+\s+` block (both parts nonempty), maximal munch. -/
def wordColonBlock (l : List Char) : Option (List Char) :=
  let r1 := l.dropWhile isWordColon
  if r1.length = l.length then none
  else
    let r2 := r1.dropWhile isPyWs
    if r2.length = r1.length then none else some r2

/-- Regex `(?:override)?\s*\{` at a position already past any preceding `\s*`. -/
def overridePart (l : List Char) : Option (List Char) :=
  (stripLit "override".toList l >>= fun r => braceTok (dropWs r)) <|> braceTok l

/-- Regex `(?:const)?\s*(?:override)?\s*\{` at a position already past `\s*`. -/
def constPart (l : List Char) : Option (List Char) :=
  (stripLit "const".toList l >>= fun r => overridePart (dropWs r)) <|> overridePart l

/-- Regex `(\w+)\s*\([^)]*\)\s*(?:const)?\s*(?:override)?\s*\{`; returns the
captured name and the rest of the input. -/
def funcCore (l : List Char) : Option (String × List Char) :=
  let name := l.takeWhile isWordChar
  if name.isEmpty then none
  else
    let r1 := dropWs (l.dropWhile isWordChar)
    match r1 with
    | '(' :: r2 =>
      let r3 := r2.dropWhile (fun c => c ≠ ')')
      match r3 with
      | ')' :: r4 => (constPart (dropWs r4)).map (fun rest => (String.mk name, rest))
      | _ => none
    | _ => none

/-- Try `FUNCTION_PATTERN` anchored at the head of `l`: returns the captured
group-1 name and the number of characters matched. -/
def funcMatch (l : List Char) : Option (String × Nat) :=
  let res :=
    (wordColonBlock l >>= fun l1 =>
      (wordColonBlock l1 >>= fun l2 => funcCore l2) <|> funcCore l1)
    <|> funcCore l
  res.map (fun p => (p.1, l.length - p.2.length))

/-!
### CLASS_PATTERN
`(?:class|struct)\s+(\w+)(?:\s*:\s*(?:public|private|protected)\s+[\w:,\s]+)?\s*\{`

In the inheritance clause, `\s+[\w:,\s]+` succeeds exactly when the maximal
`[\w:,\s]` run `W` after the access keyword starts with whitespace and has at
least two characters (the engine can split `W` as one `\s` plus the rest); it
then consumes all of `W`, and the char after `W` is not whitespace, so the
trailing `\s*` is empty and `\{` must be the next character.
-/

/-- The optional inheritance clause `\s*:\s*(?:public|private|protected)\s+[\w:,\s]+`. -/
def inheritPart (l : List Char) : Option (List Char) :=
  match dropWs l with
  | ':' :: r2 =>
    let r3 := dropWs r2
    match (stripLit "public".toList r3 <|> stripLit "private".toList r3 <|>
           stripLit "protected".toList r3) with
    | some r4 =>
      let w := r4.takeWhile isInheritChar
      match w with
      | c :: _ :: _ => if isPyWs c then some (r4.drop w.length) else none
      | _ => none
    | none => none
  | _ => none

/-- Try `CLASS_PATTERN` anchored at the head of `l`. -/
def classMatch (l : List Char) : Option (String × Nat) :=
  match (stripLit "class".toList l <|> stripLit "struct".toList l) with
  | none => none
  | some r =>
    let r1 := dropWs r
    if r1.length = r.length then none
    else
      let name := r1.takeWhile isWordChar
      if name.isEmpty then none
      else
        let r2 := r1.dropWhile isWordChar
        ((inheritPart r2 >>= fun r3 => braceTok r3) <|> braceTok (dropWs r2)).map
          (fun rest => (String.mk name, l.length - rest.length))

/-- Try `NAMESPACE_PATTERN` = `namespace\s+(\w+)\s*\{` anchored at the head. -/
def namespaceMatch (l : List Char) : Option (String × Nat) :=
  match stripLit "namespace".toList l with
  | none => none
  | some r =>
    let r1 := dropWs r
    if r1.length = r.length then none
    else
      let name := r1.takeWhile isWordChar
      if name.isEmpty then none
      else
        (braceTok (dropWs (r1.dropWhile isWordChar))).map
          (fun rest => (String.mk name, l.length - rest.length))

/-- Try `INCLUDE_PATTERN` = `#include\s+[<"]([^>"]+)[>"]` anchored at the head. -/
def includeMatch (l : List Char) : Option (String × Nat) :=
  match stripLit "#include".toList l with
  | none => none
  | some r =>
    let r1 := dropWs r
    if r1.length = r.length then none
    else
      match r1 with
      | c :: r2 =>
        if c = '<' || c = '"' then
          let body := r2.takeWhile (fun d => d ≠ '>' && d ≠ '"')
          if body.isEmpty then none
          else
            match r2.drop body.length with
            | d :: r3 =>
              if d = '>' || d = '"' then
                some (String.mk body, l.length - r3.length)
              else none
            | [] => none
        else none
      | [] => none

/-- Python `re.finditer`: scan left to right, at each offset try the anchored matcher;
on a match emit `(start, group1, end)` and resume at the match end (all our
patterns match at least one character, so `max len 1` never differs from `len`).
`fuel` is called with the input length, which suffices because every step
consumes at least one character. -/
def finditerF (m : List Char → Option (String × Nat)) :
    Nat → List Char → Nat → List (Nat × String × Nat)
  | 0, _, _ => []
  | _, [], _ => []
  | fuel + 1, c :: rest, i =>
    match m (c :: rest) with
    | some (name, len) =>
      (i, name, i + len) ::
        finditerF m fuel ((c :: rest).drop (max len 1)) (i + max len 1)
    | none => finditerF m fuel rest (i + 1)

/-- All `FUNCTION_PATTERN` matches of the file text. -/
def functionMatches (content : List Char) : List (Nat × String × Nat) :=
  finditerF funcMatch content.length content 0

/-- All `CLASS_PATTERN` matches of the file text. -/
def classMatches (content : List Char) : List (Nat × String × Nat) :=
  finditerF classMatch content.length content 0

/-- All `NAMESPACE_PATTERN` matches of the file text. -/
def namespaceMatches (content : List Char) : List (Nat × String × Nat) :=
  finditerF namespaceMatch content.length content 0

/-- All `INCLUDE_PATTERN` matches of the file text. -/
def includeMatches (content : List Char) : List (Nat × String × Nat) :=
  finditerF includeMatch content.length content 0

/-- Python `needle in hay` (substring containment). -/
def containsSub (needle hay : List Char) : Bool :=
  match hay with
  | [] => needle.isEmpty
  | _ :: rest => needle.isPrefixOf hay || containsSub needle rest

/-- The `FileMetadata` dict built by `HierarchicalChunker.extract_metadata`. -/
structure FileMetadata where
  classes : List String
  functions : List String
  namespaces : List String
  includes : List String
  file_size : Nat
  line_count : Nat
  has_main : Bool
deriving DecidableEq

/-- One chunk dict. `metadata` of the source is a dict spreading the file
metadata plus the optional level-specific `class_name` / `function_name` keys;
those two keys are the fields the claims inspect. -/
structure Chunk where
  id : String
  file_path : String
  content : String
  chunk_type : String
  detail_level : Nat
  start_line : Int
  end_line : Int
  class_name : Option String
  function_name : Option String
deriving DecidableEq

/-- Source `HierarchicalChunker.extract_metadata` (the `file_path` argument is unused
by the source body except as a parameter). -/
def extract_metadata (content : List Char) : FileMetadata :=
  { classes := (classMatches content).map (fun m => m.2.1)
    namespaces := (namespaceMatches content).map (fun m => m.2.1)
    includes := (includeMatches content).map (fun m => m.2.1)
    functions := ((functionMatches content).map (fun m => m.2.1)).take 20
    file_size := content.length
    line_count := countNl content
    has_main := containsSub "int main(".toList content ||
                containsSub "void main(".toList content }

/-- Source `HierarchicalChunker.create_level0_chunk`. The source's `if l0:` guard in
`create_all_chunks` is always taken since this function always returns a
non-empty dict. -/
def create_level0_chunk (md5hex : String → String) (fp : String)
    (metadata : FileMetadata) : Chunk :=
  let classes_str :=
    if metadata.classes ≠ [] then toString metadata.classes.length ++ " classes"
    else "no classes"
  let funcs_str :=
    if metadata.functions ≠ [] then toString metadata.functions.length ++ " functions"
    else "no functions"
  let summary := pathName fp ++ ": " ++ classes_str ++ ", " ++ funcs_str
  let summary :=
    if metadata.classes ≠ [] then
      summary ++ " (" ++ String.intercalate ", " (metadata.classes.take 3) ++ ")"
    else summary
  { id := md5hex fp ++ "_L0"
    file_path := fp
    content := summary
    chunk_type := "file_summary"
    detail_level := 0
    start_line := 0
    end_line := 0
    class_name := none
    function_name := none }

/-- Source `HierarchicalChunker.create_level1_chunk`. -/
def create_level1_chunk (md5hex : String → String) (fp : String)
    (content : List Char) (metadata : FileMetadata) : Chunk :=
  let lines := splitNl content
  let commentLines := (lines.take 10).filter (fun line =>
    let s := pyStrip line
    List.isPrefixOf "//".toList s || List.isPrefixOf "/*".toList s ||
      List.isPrefixOf "*".toList s)
  let overview := commentLines ++ ["\n// Includes:".toList]
  let overview := overview ++
    (metadata.includes.take 5).map (fun inc =>
      "#include <".toList ++ inc.toList ++ ">".toList)
  let overview := overview ++
    (if metadata.namespaces ≠ [] then
      [("\n// Namespaces: " ++
        String.intercalate ", " (metadata.namespaces.take 3)).toList]
     else [])
  let overview := overview ++
    (if metadata.classes ≠ [] then
      [("// Classes: " ++ String.intercalate ", " (metadata.classes.take 5)).toList]
     else [])
  let overview := overview ++
    (if metadata.functions ≠ [] then
      [("// Functions: " ++ toString metadata.functions.length ++ " total").toList]
     else [])
  { id := md5hex fp ++ "_L1"
    file_path := fp
    content := String.mk (joinNl (overview.take 30))
    chunk_type := "file_overview"
    detail_level := 1
    start_line := 0
    end_line := 30
    class_name := none
    function_name := none }

/-- The bounded brace scan of `create_level2_chunks`: starting just past the
declaration's `{` with `brace_count = 1`, walk while `brace_count > 0` and
fewer than 20 newlines have been seen; returns the number of characters
consumed. -/
def scanL2 : List Char → Int → Nat → Nat
  | [], _, _ => 0
  | c :: rest, bc, le =>
    if bc ≤ 0 || 20 ≤ le then 0
    else if c = '\x7b' then 1 + scanL2 rest (bc + 1) le
    else if c = '\x7d' then 1 + scanL2 rest (bc - 1) le
    else if c = '\n' then 1 + scanL2 rest bc (le + 1)
    else 1 + scanL2 rest bc le

/-- The bounded brace scan of `create_level3_chunks`: walk while fewer than 15
newlines have been seen; on the `}` that would bring the count to 0 the source
`break`s before `pos += 1`, so that brace is not consumed. -/
def scanL3 : List Char → Int → Nat → Nat
  | [], _, _ => 0
  | c :: rest, bc, le =>
    if 15 ≤ le then 0
    else if c = '\x7b' then 1 + scanL3 rest (bc + 1) le
    else if c = '\x7d' then
      if bc - 1 = 0 then 0 else 1 + scanL3 rest (bc - 1) le
    else if c = '\n' then 1 + scanL3 rest bc (le + 1)
    else 1 + scanL3 rest bc le

/-- The unbounded brace scan of `create_level4_chunks`: walk while
`brace_count > 0`; the closing brace is consumed before the guard re-check. -/
def scanL4 : List Char → Int → Nat
  | [], _ => 0
  | c :: rest, bc =>
    if bc ≤ 0 then 0
    else if c = '\x7b' then 1 + scanL4 rest (bc + 1)
    else if c = '\x7d' then 1 + scanL4 rest (bc - 1)
    else 1 + scanL4 rest bc

/-- Source `HierarchicalChunker.create_level2_chunks`. -/
def create_level2_chunks (md5hex : String → String) (fp : String)
    (content : List Char) : List Chunk :=
  (classMatches content).map (fun m =>
    let class_name := m.2.1
    let start_pos := m.1
    let start_line := countNl (content.take start_pos)
    let pos := m.2.2 + scanL2 (content.drop m.2.2) 1 0
    let end_line := countNl (content.take pos)
    let class_summary := listSub content start_pos pos
    let summary_lines := ((splitNl class_summary).take 20).filter (fun line =>
      line.contains '\x7b' || line.contains '\x7d' ||
      containsSub "public:".toList line || containsSub "private:".toList line ||
      containsSub "protected:".toList line ||
      (!(pyStrip line).isEmpty && !(List.isPrefixOf "//".toList (pyStrip line))))
    { id := md5hex (fp ++ "_" ++ class_name ++ "_L2")
      file_path := fp
      content := String.mk (joinNl (summary_lines.take 20))
      chunk_type := "class_summary"
      detail_level := 2
      start_line := (start_line : Int)
      end_line := (end_line : Int)
      class_name := some class_name
      function_name := none })

/-- The chunk (if any) that `create_level3_chunks` emits for one function match. -/
def level3_chunk (md5hex : String → String) (fp : String) (content : List Char)
    (m : Nat × String × Nat) : Option Chunk :=
  let func_name := m.2.1
  let start_pos := m.1
  let start_line := countNl (content.take start_pos)
  let pos := m.2.2 + scanL3 (content.drop m.2.2) 1 0
  let end_line := countNl (content.take pos)
  let func_preview := listSub content start_pos pos
  if (pyStrip func_preview).length < 20 then none
  else some
    { id := md5hex (fp ++ "_" ++ func_name ++ "_L3_" ++ toString start_line)
      file_path := fp
      content := String.mk func_preview
      chunk_type := "function_preview"
      detail_level := 3
      start_line := (start_line : Int)
      end_line := (end_line : Int)
      class_name := none
      function_name := some func_name }

/-- Source `HierarchicalChunker.create_level3_chunks`. -/
def create_level3_chunks (md5hex : String → String) (fp : String)
    (content : List Char) : List Chunk :=
  (functionMatches content).filterMap (level3_chunk md5hex fp content)

/-- The chunk (if any) that the first half of `create_level4_chunks` emits for
one function match. -/
def level4_function_chunk (md5hex : String → String) (fp : String)
    (content : List Char) (m : Nat × String × Nat) : Option Chunk :=
  let func_name := m.2.1
  let start_pos := m.1
  let start_line := countNl (content.take start_pos)
  let pos := m.2.2 + scanL4 (content.drop m.2.2) 1
  let end_line := countNl (content.take pos)
  let func_full := listSub content start_pos pos
  if (pyStrip func_full).length < 50 then none
  else some
    { id := md5hex (fp ++ "_" ++ func_name ++ "_L4_" ++ toString start_line)
      file_path := fp
      content := String.mk func_full
      chunk_type := "function_full"
      detail_level := 4
      start_line := (start_line : Int)
      end_line := (end_line : Int)
      class_name := none
      function_name := some func_name }

/-- The full-function half of `create_level4_chunks`. -/
def level4_function_chunks (md5hex : String → String) (fp : String)
    (content : List Char) : List Chunk :=
  (functionMatches content).filterMap (level4_function_chunk md5hex fp content)

/-- The `code_block` chunk of one sliding window. -/
def window_chunk (md5hex : String → String) (fp : String)
    (lines : List (List Char)) (chunk_size : Nat) (pos : Int) (idx : Nat) : Chunk :=
  let chunk_lines := pySlice lines pos (pos + (chunk_size : Int))
  { id := md5hex (fp ++ "_L4_block_" ++ toString idx)
    file_path := fp
    content := String.mk (joinNl chunk_lines)
    chunk_type := "code_block"
    detail_level := 4
    start_line := pos
    end_line := pos + (chunk_lines.length : Int)
    class_name := none
    function_name := none }

/-- The sliding-window loop of `create_level4_chunks`:
`while current_pos < len(lines): ...; current_pos += chunk_size - 10`.
The loop body is executed once per unit of fuel; `none` models the source not
terminating within the given fuel. Fuel `lines.length` is exact: with stride
`chunk_size - 10 ≥ 1` at most `lines.length` iterations run, and with stride
`≤ 0` the source loops forever. -/
def windowLoopF (md5hex : String → String) (fp : String)
    (lines : List (List Char)) (chunk_size : Nat) :
    Nat → Int → Nat → List Chunk → Option (List Chunk)
  | fuel, pos, idx, acc =>
    if pos < (lines.length : Int) then
      match fuel with
      | 0 => none
      | fuel + 1 =>
        windowLoopF md5hex fp lines chunk_size fuel
          (pos + (chunk_size : Int) - 10) (idx + 1)
          (if 50 < (pyStrip (joinNl (pySlice lines pos (pos + (chunk_size : Int))))).length
           then acc ++ [window_chunk md5hex fp lines chunk_size pos idx]
           else acc)
    else some acc

/-- Source `HierarchicalChunker.create_level4_chunks`; `none` models divergence of the
sliding-window loop. -/
def create_level4_chunks (md5hex : String → String) (fp : String)
    (content : List Char) (chunk_size : Nat) : Option (List Chunk) :=
  (windowLoopF md5hex fp (splitNl content) chunk_size (splitNl content).length 0 0 []).map
    (fun ws => level4_function_chunks md5hex fp content ++ ws)

/-- Source `HierarchicalChunker.create_all_chunks`; `none` models divergence. The
source's `if l0:` / `if l1:` guards are always true (both constructors return
non-empty dicts), so Level 0 and Level 1 are appended unconditionally. -/
def create_all_chunks (md5hex : String → String) (fp : String)
    (contentS : String) (chunk_size : Nat) : Option (List Chunk) :=
  (create_level4_chunks md5hex fp contentS.toList chunk_size).map (fun l4 =>
    create_level0_chunk md5hex fp (extract_metadata contentS.toList) ::
    create_level1_chunk md5hex fp contentS.toList (extract_metadata contentS.toList) ::
    (create_level2_chunks md5hex fp contentS.toList ++
     create_level3_chunks md5hex fp contentS.toList ++ l4))

/-- Concrete hash instantiation used by closed counterexamples and witnesses
(the claims never depend on the hash's internals). -/
def identityHash : String → String := fun s => s

/-- Fallback value for indexing into concrete chunk lists in closed statements. -/
def fallbackChunk : Chunk :=
  { id := "", file_path := "", content := "", chunk_type := "", detail_level := 0,
    start_line := 0, end_line := 0, class_name := none, function_name := none }

/-- Brace-nesting depth after consuming the first `n` characters, starting from
depth `bc`: `+1` per `{`, `-1` per `}`. Used to state what the scans return. -/
def depthAfter : List Char → Nat → Int → Int
  | _, 0, bc => bc
  | [], _ + 1, bc => bc
  | c :: rest, n + 1, bc =>
    depthAfter rest n (if c = '\x7b' then bc + 1 else if c = '\x7d' then bc - 1 else bc)

/-- Number of iterations of the sliding-window loop over `nlines` lines with a
positive stride: `⌈nlines / stride⌉`. -/
def numWindows (nlines stride : Nat) : Nat :=
  (nlines + stride - 1) / stride

/-- The text of sliding window `i` (used to state the window-emission claim). -/
def windowText (lines : List (List Char)) (chunk_size : Nat) (i : Nat) : List Char :=
  joinNl (pySlice lines ((i : Int) * ((chunk_size : Int) - 10))
    ((i : Int) * ((chunk_size : Int) - 10) + (chunk_size : Int)))

/-- The chunk (if any) that one iteration of the sliding-window loop emits. -/
def windowEmit (md5hex : String → String) (fp : String)
    (lines : List (List Char)) (chunk_size : Nat) (i : Nat) : Option Chunk :=
  if 50 < (pyStrip (windowText lines chunk_size i)).length then
    some (window_chunk md5hex fp lines chunk_size
      ((i : Int) * ((chunk_size : Int) - 10)) i)
  else none

/-- Closed form of the sliding-window half of `create_level4_chunks` (for
stride `chunk_size - 10 ≥ 1`): one window per index `i < numWindows`, kept
exactly when its trimmed text has strictly more than 50 characters. -/
def windowChunksSpec (md5hex : String → String) (fp : String)
    (lines : List (List Char)) (chunk_size : Nat) : List Chunk :=
  (List.range (numWindows lines.length (chunk_size - 10))).filterMap
    (windowEmit md5hex fp lines chunk_size)

/-- The C2 scenario's function text. -/
def runFuncText : String := "void run() \x7b\n  doWork();\n\x7d"

/-- The C2 scenario input: the function text starting at 0-based line 10. -/
def c2input : String := "\n\n\n\n\n\n\n\n\n\nvoid run() \x7b\n  doWork();\n\x7d"

/-- A function-signature candidate whose captured name is the keyword `if`. -/
def c3input : String := "if (someConditionHolds) \x7b\n  doWork(); doMore();\n\x7d"

/-- A complete function at line 0 (for the brace-inclusion counterexample). -/
def c5input : String := "void run() \x7b\n  doWork();\n\x7d"

/-- A single line of exactly 50 non-whitespace characters. -/
def c9input : String := String.mk (List.replicate 50 'a')

/-! ## Basic lemmas about the helper functions -/

theorem countNl_take_le (l : List Char) (n : Nat) :
    countNl (l.take n) ≤ countNl l :=
  (List.take_sublist n l).count_le '\n'

theorem countNl_take_mono (l : List Char) {a b : Nat} (h : a ≤ b) :
    countNl (l.take a) ≤ countNl (l.take b) := by
  have : l.take a = (l.take b).take a := by
    rw [List.take_take, min_eq_left h]
  rw [this]
  exact countNl_take_le (l.take b) a

theorem splitNl_ne_nil (l : List Char) : splitNl l ≠ [] := by
  cases l with
  | nil => simp [splitNl]
  | cons c rest =>
    rw [splitNl]
    split
    · simp
    · cases h : splitNl rest <;> simp

theorem splitNl_length (l : List Char) :
    (splitNl l).length = countNl l + 1 := by
  induction l with
  | nil => simp [splitNl, countNl]
  | cons c rest ih =>
    rw [splitNl]
    split
    · rename_i hc
      have hcnt : countNl (c :: rest) = countNl rest + 1 := by
        simp [countNl, List.count_cons, hc]
      simp only [List.length_cons, ih, hcnt]
    · rename_i hc
      have hne := splitNl_ne_nil rest
      cases h : splitNl rest with
      | nil => exact absurd h hne
      | cons g gs =>
        have hcnt : countNl (c :: rest) = countNl rest := by
          simp [countNl, List.count_cons, hc]
        rw [hcnt, ← ih, h]
        show ((c :: g) :: gs).length = (g :: gs).length
        simp

/-! ## Lemmas about `finditerF` -/

theorem mem_finditerF {m : List Char → Option (String × Nat)} :
    ∀ (fuel : Nat) (cs : List Char) (i : Nat) (x : Nat × String × Nat),
      x ∈ finditerF m fuel cs i → i ≤ x.1 ∧ x.1 ≤ x.2.2 := by
  intro fuel
  induction fuel with
  | zero => intro cs i x hx; simp [finditerF] at hx
  | succ fuel ih =>
    intro cs i x hx
    cases cs with
    | nil => simp [finditerF] at hx
    | cons c rest =>
      rw [finditerF] at hx
      cases hm : m (c :: rest) with
      | some p =>
        obtain ⟨name, len⟩ := p
        rw [hm] at hx
        rcases List.mem_cons.mp hx with rfl | hx
        · exact ⟨le_refl _, Nat.le_add_right _ _⟩
        · have := ih _ _ x hx
          exact ⟨le_trans (Nat.le_add_right i (max len 1)) this.1, this.2⟩
      | none =>
        rw [hm] at hx
        have := ih _ _ x hx
        exact ⟨le_trans (Nat.le_succ i) this.1, this.2⟩

theorem pairwise_finditerF {m : List Char → Option (String × Nat)} :
    ∀ (fuel : Nat) (cs : List Char) (i : Nat),
      (finditerF m fuel cs i).Pairwise (fun a b => a.1 < b.1) := by
  intro fuel
  induction fuel with
  | zero => intro cs i; simp [finditerF]
  | succ fuel ih =>
    intro cs i
    cases cs with
    | nil => simp [finditerF]
    | cons c rest =>
      rw [finditerF]
      cases hm : m (c :: rest) with
      | some p =>
        obtain ⟨name, len⟩ := p
        refine List.Pairwise.cons ?_ (ih _ _)
        intro y hy
        have h1 := (mem_finditerF _ _ _ y hy).1
        have h2 : i < i + max len 1 := by
          have : 1 ≤ max len 1 := le_max_right _ _
          omega
        exact lt_of_lt_of_le h2 h1
      | none => exact ih _ _

/-! ## Lemmas about the three brace scans -/

theorem depthAfter_zero (cs : List Char) (bc : Int) : depthAfter cs 0 bc = bc := by
  cases cs <;> rfl

theorem depthAfter_cons (c : Char) (rest : List Char) (n : Nat) (bc : Int) :
    depthAfter (c :: rest) (n + 1) bc =
      depthAfter rest n
        (if c = '\x7b' then bc + 1 else if c = '\x7d' then bc - 1 else bc) := rfl

theorem scanL4_nonpos (cs : List Char) (bc : Int) (h : bc ≤ 0) :
    scanL4 cs bc = 0 := by
  cases cs with
  | nil => rfl
  | cons c rest => rw [scanL4, if_pos h]

theorem scanL4_le_length : ∀ (cs : List Char) (bc : Int), scanL4 cs bc ≤ cs.length := by
  intro cs
  induction cs with
  | nil => intro bc; simp [scanL4]
  | cons c rest ih =>
    intro bc
    rw [scanL4]
    split
    · simp
    · split
      · have := ih (bc + 1); simp; omega
      · split
        · have := ih (bc - 1); simp; omega
        · have := ih bc; simp; omega

theorem scanL4_spec : ∀ (cs : List Char) (bc : Int), 1 ≤ bc →
    (∀ m < scanL4 cs bc, 1 ≤ depthAfter cs m bc) ∧
    (scanL4 cs bc = cs.length ∨
      (1 ≤ scanL4 cs bc ∧ cs.get? (scanL4 cs bc - 1) = some '\x7d' ∧
        depthAfter cs (scanL4 cs bc) bc = 0)) := by
  intro cs
  induction cs with
  | nil =>
    intro bc _
    refine ⟨fun m hm => absurd hm (by simp [scanL4]), Or.inl rfl⟩
  | cons c rest ih =>
    intro bc hbc
    have hguard : ¬ bc ≤ 0 := by omega
    by_cases hb : c = '\x7b'
    · have hrw : scanL4 (c :: rest) bc = 1 + scanL4 rest (bc + 1) := by
        rw [scanL4, if_neg hguard, if_pos hb]
      obtain ⟨ihm, ihs⟩ := ih (bc + 1) (by omega)
      constructor
      · intro m hm
        cases m with
        | zero => rw [depthAfter_zero]; omega
        | succ m' =>
          rw [depthAfter_cons, if_pos hb]
          exact ihm m' (by omega)
      · rcases ihs with h | ⟨h1, h2, h3⟩
        · exact Or.inl (by simp [hrw, h]; omega)
        · refine Or.inr ⟨by omega, ?_, ?_⟩
          · rw [hrw]
            have : 1 + scanL4 rest (bc + 1) - 1 = (scanL4 rest (bc + 1) - 1) + 1 := by omega
            rw [this, List.get?_cons_succ]
            exact h2
          · rw [hrw]
            have : 1 + scanL4 rest (bc + 1) = scanL4 rest (bc + 1) + 1 := by omega
            rw [this, depthAfter_cons, if_pos hb]
            exact h3
    · by_cases hd : c = '\x7d'
      · by_cases h1 : bc = 1
        · subst h1
          have hrw : scanL4 (c :: rest) 1 = 1 := by
            rw [scanL4, if_neg hguard, if_neg hb, if_pos hd,
              scanL4_nonpos rest _ (by omega)]
          constructor
          · intro m hm
            rw [hrw] at hm
            interval_cases m
            rw [depthAfter_zero]
          · refine Or.inr ⟨by omega, ?_, ?_⟩
            · rw [hrw]
              show (c :: rest).get? 0 = some '\x7d'
              simp [hd]
            · rw [hrw]
              show depthAfter (c :: rest) (0 + 1) 1 = 0
              rw [depthAfter_cons, if_neg hb, if_pos hd, depthAfter_zero]
              omega
        · have hrw : scanL4 (c :: rest) bc = 1 + scanL4 rest (bc - 1) := by
            rw [scanL4, if_neg hguard, if_neg hb, if_pos hd]
          obtain ⟨ihm, ihs⟩ := ih (bc - 1) (by omega)
          constructor
          · intro m hm
            cases m with
            | zero => rw [depthAfter_zero]; omega
            | succ m' =>
              rw [depthAfter_cons, if_neg hb, if_pos hd]
              exact ihm m' (by omega)
          · rcases ihs with h | ⟨h1, h2, h3⟩
            · exact Or.inl (by simp [hrw, h]; omega)
            · refine Or.inr ⟨by omega, ?_, ?_⟩
              · rw [hrw]
                have : 1 + scanL4 rest (bc - 1) - 1 = (scanL4 rest (bc - 1) - 1) + 1 := by
                  omega
                rw [this, List.get?_cons_succ]
                exact h2
              · rw [hrw]
                have : 1 + scanL4 rest (bc - 1) = scanL4 rest (bc - 1) + 1 := by omega
                rw [this, depthAfter_cons, if_neg hb, if_pos hd]
                exact h3
      · have hrw : scanL4 (c :: rest) bc = 1 + scanL4 rest bc := by
          rw [scanL4, if_neg hguard, if_neg hb, if_neg hd]
        obtain ⟨ihm, ihs⟩ := ih bc hbc
        constructor
        · intro m hm
          cases m with
          | zero => rw [depthAfter_zero]; omega
          | succ m' =>
            rw [depthAfter_cons, if_neg hb, if_neg hd]
            exact ihm m' (by omega)
        · rcases ihs with h | ⟨h1, h2, h3⟩
          · exact Or.inl (by simp [hrw, h]; omega)
          · refine Or.inr ⟨by omega, ?_, ?_⟩
            · rw [hrw]
              have : 1 + scanL4 rest bc - 1 = (scanL4 rest bc - 1) + 1 := by omega
              rw [this, List.get?_cons_succ]
              exact h2
            · rw [hrw]
              have : 1 + scanL4 rest bc = scanL4 rest bc + 1 := by omega
              rw [this, depthAfter_cons, if_neg hb, if_neg hd]
              exact h3

theorem countNl_cons (c : Char) (l : List Char) :
    countNl (c :: l) = countNl l + (if c = '\n' then 1 else 0) := by
  simp [countNl, List.count_cons]

theorem countNl_take_one_add (c : Char) (rest : List Char) (k : Nat) :
    countNl (List.take (1 + k) (c :: rest)) =
      countNl (List.take k rest) + (if c = '\n' then 1 else 0) := by
  rw [Nat.add_comm 1 k, List.take_succ_cons, countNl_cons]

theorem scanL3_le_length : ∀ (cs : List Char) (bc : Int) (le : Nat),
    scanL3 cs bc le ≤ cs.length := by
  intro cs
  induction cs with
  | nil => intro bc le; simp [scanL3]
  | cons c rest ih =>
    intro bc le
    rw [scanL3]
    split
    · simp
    · split
      · have := ih (bc + 1) le; simp; omega
      · split
        · split
          · simp
          · have := ih (bc - 1) le; simp; omega
        · split
          · have := ih bc (le + 1); simp; omega
          · have := ih bc le; simp; omega

theorem scanL3_depth : ∀ (cs : List Char) (bc : Int) (le : Nat), 1 ≤ bc →
    1 ≤ depthAfter cs (scanL3 cs bc le) bc := by
  intro cs
  induction cs with
  | nil =>
    intro bc le hbc
    simp only [scanL3, depthAfter_zero]
    exact hbc
  | cons c rest ih =>
    intro bc le hbc
    rw [scanL3]
    split
    · rw [depthAfter_zero]; exact hbc
    · split
      · rename_i hb
        rw [Nat.add_comm, depthAfter_cons, if_pos hb]
        exact ih (bc + 1) le (by omega)
      · rename_i hb
        split
        · rename_i hd
          split
          · rw [depthAfter_zero]; exact hbc
          · rename_i hone
            rw [Nat.add_comm, depthAfter_cons, if_neg hb, if_pos hd]
            exact ih (bc - 1) le (by omega)
        · rename_i hd
          split
          · rw [Nat.add_comm, depthAfter_cons, if_neg hb, if_neg hd]
            exact ih bc (le + 1) hbc
          · rw [Nat.add_comm, depthAfter_cons, if_neg hb, if_neg hd]
            exact ih bc le hbc

theorem scanL3_stop : ∀ (cs : List Char) (bc : Int) (le : Nat), 1 ≤ bc →
    scanL3 cs bc le = cs.length ∨
    15 ≤ le + countNl (cs.take (scanL3 cs bc le)) ∨
    (cs.get? (scanL3 cs bc le) = some '\x7d' ∧
      depthAfter cs (scanL3 cs bc le) bc = 1) := by
  intro cs
  induction cs with
  | nil => intro bc le _; exact Or.inl rfl
  | cons c rest ih =>
    intro bc le hbc
    rw [scanL3]
    split
    · rename_i hle
      refine Or.inr (Or.inl ?_)
      simp [countNl]
      omega
    · rename_i hle
      split
      · rename_i hb
        rcases ih (bc + 1) le (by omega) with h | h | ⟨h1, h2⟩
        · exact Or.inl (by simp [h]; omega)
        · refine Or.inr (Or.inl ?_)
          rw [countNl_take_one_add]
          have : ¬ c = '\n' := by
            intro hc; rw [hc] at hb; exact absurd hb (by decide)
          rw [if_neg this]
          omega
        · refine Or.inr (Or.inr ⟨?_, ?_⟩)
          · rw [Nat.add_comm, List.get?_cons_succ]; exact h1
          · rw [Nat.add_comm, depthAfter_cons, if_pos hb]; exact h2
      · rename_i hb
        split
        · rename_i hd
          split
          · rename_i hone
            refine Or.inr (Or.inr ⟨?_, ?_⟩)
            · show (c :: rest).get? 0 = some '\x7d'
              simp [hd]
            · rw [depthAfter_zero]; omega
          · rename_i hone
            rcases ih (bc - 1) le (by omega) with h | h | ⟨h1, h2⟩
            · exact Or.inl (by simp [h]; omega)
            · refine Or.inr (Or.inl ?_)
              rw [countNl_take_one_add]
              have : ¬ c = '\n' := by
                intro hc; rw [hc] at hd; exact absurd hd (by decide)
              rw [if_neg this]
              omega
            · refine Or.inr (Or.inr ⟨?_, ?_⟩)
              · rw [Nat.add_comm, List.get?_cons_succ]; exact h1
              · rw [Nat.add_comm, depthAfter_cons, if_neg hb, if_pos hd]; exact h2
        · rename_i hd
          split
          · rename_i hn
            rcases ih bc (le + 1) hbc with h | h | ⟨h1, h2⟩
            · exact Or.inl (by simp [h]; omega)
            · refine Or.inr (Or.inl ?_)
              rw [countNl_take_one_add, if_pos hn]
              omega
            · refine Or.inr (Or.inr ⟨?_, ?_⟩)
              · rw [Nat.add_comm, List.get?_cons_succ]; exact h1
              · rw [Nat.add_comm, depthAfter_cons, if_neg hb, if_neg hd]; exact h2
          · rename_i hn
            rcases ih bc le hbc with h | h | ⟨h1, h2⟩
            · exact Or.inl (by simp [h]; omega)
            · refine Or.inr (Or.inl ?_)
              rw [countNl_take_one_add, if_neg hn]
              omega
            · refine Or.inr (Or.inr ⟨?_, ?_⟩)
              · rw [Nat.add_comm, List.get?_cons_succ]; exact h1
              · rw [Nat.add_comm, depthAfter_cons, if_neg hb, if_neg hd]; exact h2

theorem scanL2_nonpos (cs : List Char) (bc : Int) (le : Nat) (h : bc ≤ 0) :
    scanL2 cs bc le = 0 := by
  cases cs with
  | nil => rfl
  | cons c rest =>
    rw [scanL2]
    rw [if_pos]
    simp [h]

theorem scanL2_le_length : ∀ (cs : List Char) (bc : Int) (le : Nat),
    scanL2 cs bc le ≤ cs.length := by
  intro cs
  induction cs with
  | nil => intro bc le; simp [scanL2]
  | cons c rest ih =>
    intro bc le
    rw [scanL2]
    split
    · simp
    · split
      · have := ih (bc + 1) le; simp; omega
      · split
        · have := ih (bc - 1) le; simp; omega
        · split
          · have := ih bc (le + 1); simp; omega
          · have := ih bc le; simp; omega

theorem scanL2_stop : ∀ (cs : List Char) (bc : Int) (le : Nat), 1 ≤ bc →
    scanL2 cs bc le = cs.length ∨
    20 ≤ le + countNl (cs.take (scanL2 cs bc le)) ∨
    (1 ≤ scanL2 cs bc le ∧ cs.get? (scanL2 cs bc le - 1) = some '\x7d' ∧
      depthAfter cs (scanL2 cs bc le) bc = 0) := by
  intro cs
  induction cs with
  | nil => intro bc le _; exact Or.inl rfl
  | cons c rest ih =>
    intro bc le hbc
    rw [scanL2]
    split
    · rename_i hg
      have hle : 20 ≤ le := by
        rcases Bool.or_eq_true_iff.mp hg with h | h
        · exact absurd (by exact decide_eq_true_eq.mp h) (by omega)
        · exact decide_eq_true_eq.mp h
      refine Or.inr (Or.inl ?_)
      simp [countNl]
      omega
    · rename_i hg
      have hle : le < 20 := by
        by_contra hcon
        exact hg (by simp; omega)
      split
      · rename_i hb
        rcases ih (bc + 1) le (by omega) with h | h | ⟨h1, h2, h3⟩
        · exact Or.inl (by simp [h]; omega)
        · refine Or.inr (Or.inl ?_)
          rw [countNl_take_one_add]
          have : ¬ c = '\n' := by
            intro hc; rw [hc] at hb; exact absurd hb (by decide)
          rw [if_neg this]
          omega
        · refine Or.inr (Or.inr ⟨by omega, ?_, ?_⟩)
          · have : 1 + scanL2 rest (bc + 1) le - 1 = (scanL2 rest (bc + 1) le - 1) + 1 := by
              omega
            rw [this, List.get?_cons_succ]
            exact h2
          · rw [Nat.add_comm, depthAfter_cons, if_pos hb]
            exact h3
      · rename_i hb
        split
        · rename_i hd
          by_cases hone : bc = 1
          · subst hone
            have hz : scanL2 rest (1 - 1) le = 0 := scanL2_nonpos rest _ le (by omega)
            rw [hz]
            refine Or.inr (Or.inr ⟨by omega, ?_, ?_⟩)
            · show (c :: rest).get? 0 = some '\x7d'
              simp [hd]
            · show depthAfter (c :: rest) (0 + 1) 1 = 0
              rw [depthAfter_cons, if_neg hb, if_pos hd, depthAfter_zero]
              omega
          · rcases ih (bc - 1) le (by omega) with h | h | ⟨h1, h2, h3⟩
            · exact Or.inl (by simp [h]; omega)
            · refine Or.inr (Or.inl ?_)
              rw [countNl_take_one_add]
              have : ¬ c = '\n' := by
                intro hc; rw [hc] at hd; exact absurd hd (by decide)
              rw [if_neg this]
              omega
            · refine Or.inr (Or.inr ⟨by omega, ?_, ?_⟩)
              · have : 1 + scanL2 rest (bc - 1) le - 1 =
                    (scanL2 rest (bc - 1) le - 1) + 1 := by omega
                rw [this, List.get?_cons_succ]
                exact h2
              · rw [Nat.add_comm, depthAfter_cons, if_neg hb, if_pos hd]
                exact h3
        · rename_i hd
          split
          · rename_i hn
            rcases ih bc (le + 1) hbc with h | h | ⟨h1, h2, h3⟩
            · exact Or.inl (by simp [h]; omega)
            · refine Or.inr (Or.inl ?_)
              rw [countNl_take_one_add, if_pos hn]
              omega
            · refine Or.inr (Or.inr ⟨by omega, ?_, ?_⟩)
              · have : 1 + scanL2 rest bc (le + 1) - 1 =
                    (scanL2 rest bc (le + 1) - 1) + 1 := by omega
                rw [this, List.get?_cons_succ]
                exact h2
              · rw [Nat.add_comm, depthAfter_cons, if_neg hb, if_neg hd]
                exact h3
          · rename_i hn
            rcases ih bc le hbc with h | h | ⟨h1, h2, h3⟩
            · exact Or.inl (by simp [h]; omega)
            · refine Or.inr (Or.inl ?_)
              rw [countNl_take_one_add, if_neg hn]
              omega
            · refine Or.inr (Or.inr ⟨by omega, ?_, ?_⟩)
              · have : 1 + scanL2 rest bc le - 1 = (scanL2 rest bc le - 1) + 1 := by
                  omega
                rw [this, List.get?_cons_succ]
                exact h2
              · rw [Nat.add_comm, depthAfter_cons, if_neg hb, if_neg hd]
                exact h3

/-! ## Lemmas about the sliding-window loop -/

theorem lt_numWindows_iff {stride : Nat} (hs : 1 ≤ stride) (n idx : Nat) :
    idx < numWindows n stride ↔ idx * stride < n := by
  unfold numWindows
  rw [Nat.lt_iff_add_one_le, Nat.le_div_iff_mul_le (by omega : 0 < stride),
    add_one_mul]
  omega

theorem numWindows_le (n : Nat) {stride : Nat} (hs : 1 ≤ stride) :
    numWindows n stride ≤ n := by
  unfold numWindows
  rw [← Nat.lt_succ_iff, Nat.div_lt_iff_lt_mul (by omega : 0 < stride),
    Nat.succ_mul]
  have : n ≤ n * stride := Nat.le_mul_of_pos_right n (by omega)
  omega

theorem windowLoopF_none (md5hex : String → String) (fp : String)
    (lines : List (List Char)) (chunk_size : Nat)
    (hlen : 1 ≤ lines.length) (hcs : chunk_size ≤ 10) :
    ∀ (fuel : Nat) (pos : Int), pos ≤ 0 → ∀ (idx : Nat) (acc : List Chunk),
      windowLoopF md5hex fp lines chunk_size fuel pos idx acc = none := by
  intro fuel
  induction fuel with
  | zero =>
    intro pos hpos idx acc
    rw [windowLoopF, if_pos (by omega : pos < (lines.length : Int))]
  | succ fuel ih =>
    intro pos hpos idx acc
    rw [windowLoopF, if_pos (by omega : pos < (lines.length : Int))]
    exact ih _ (by omega) _ _

theorem windowLoopF_eq (md5hex : String → String) (fp : String)
    (lines : List (List Char)) (chunk_size : Nat) (hcs : 11 ≤ chunk_size) :
    ∀ (fuel idx : Nat) (acc : List Chunk),
      numWindows lines.length (chunk_size - 10) - idx ≤ fuel →
      windowLoopF md5hex fp lines chunk_size fuel
          ((idx : Int) * ((chunk_size : Int) - 10)) idx acc =
        some (acc ++
          (List.range' idx (numWindows lines.length (chunk_size - 10) - idx) 1).filterMap
            (windowEmit md5hex fp lines chunk_size)) := by
  have hs : 1 ≤ chunk_size - 10 := by omega
  intro fuel
  induction fuel with
  | zero =>
    intro idx acc hfuel
    have hidx : numWindows lines.length (chunk_size - 10) ≤ idx := by omega
    have hguard : ¬ ((idx : Int) * ((chunk_size : Int) - 10) < (lines.length : Int)) := by
      have h1 : ¬ idx * (chunk_size - 10) < lines.length := by
        intro hcon
        exact absurd ((lt_numWindows_iff hs lines.length idx).mpr hcon) (by omega)
      have h2 : ((idx : Int) * ((chunk_size : Int) - 10)) =
          ((idx * (chunk_size - 10) : Nat) : Int) := by
        push_cast [Nat.cast_sub (by omega : (10 : Nat) ≤ chunk_size)]
        ring
      rw [h2]
      exact_mod_cast h1
    rw [windowLoopF, if_neg hguard]
    have : numWindows lines.length (chunk_size - 10) - idx = 0 := by omega
    rw [this]
    simp
  | succ fuel ih =>
    intro idx acc hfuel
    by_cases hidx : idx < numWindows lines.length (chunk_size - 10)
    · have hguard : (idx : Int) * ((chunk_size : Int) - 10) < (lines.length : Int) := by
        have h1 : idx * (chunk_size - 10) < lines.length :=
          (lt_numWindows_iff hs lines.length idx).mp hidx
        have h2 : ((idx : Int) * ((chunk_size : Int) - 10)) =
            ((idx * (chunk_size - 10) : Nat) : Int) := by
          push_cast [Nat.cast_sub (by omega : (10 : Nat) ≤ chunk_size)]
          ring
        rw [h2]
        exact_mod_cast h1
      rw [windowLoopF, if_pos hguard]
      have hpos : (idx : Int) * ((chunk_size : Int) - 10) + (chunk_size : Int) - 10 =
          ((idx + 1 : Nat) : Int) * ((chunk_size : Int) - 10) := by
        push_cast
        ring
      have hrange : numWindows lines.length (chunk_size - 10) - idx =
          (numWindows lines.length (chunk_size - 10) - (idx + 1)) + 1 := by omega
      rw [hrange, List.range'_succ, List.filterMap_cons]
      have hrec := ih (idx + 1)
      cases hemit : windowEmit md5hex fp lines chunk_size idx with
      | some wc =>
        have hcond : 50 < (pyStrip (joinNl (pySlice lines
            ((idx : Int) * ((chunk_size : Int) - 10))
            ((idx : Int) * ((chunk_size : Int) - 10) + (chunk_size : Int))))).length := by
          by_contra hcon
          rw [windowEmit, windowText, if_neg hcon] at hemit
          exact Option.noConfusion hemit
        have hwc : wc = window_chunk md5hex fp lines chunk_size
            ((idx : Int) * ((chunk_size : Int) - 10)) idx := by
          rw [windowEmit, windowText, if_pos hcond] at hemit
          exact (Option.some.inj hemit).symm
        rw [if_pos hcond, hpos]
        rw [hrec (acc ++ [window_chunk md5hex fp lines chunk_size
          ((idx : Int) * ((chunk_size : Int) - 10)) idx]) (by omega)]
        rw [hwc]
        simp
      | none =>
        have hcond : ¬ 50 < (pyStrip (joinNl (pySlice lines
            ((idx : Int) * ((chunk_size : Int) - 10))
            ((idx : Int) * ((chunk_size : Int) - 10) + (chunk_size : Int))))).length := by
          intro hcon
          rw [windowEmit, windowText, if_pos hcon] at hemit
          exact Option.noConfusion hemit
        rw [if_neg hcond, hpos]
        exact hrec acc (by omega)
    · have hguard : ¬ ((idx : Int) * ((chunk_size : Int) - 10) < (lines.length : Int)) := by
        have h1 : ¬ idx * (chunk_size - 10) < lines.length := by
          intro hcon
          exact absurd ((lt_numWindows_iff hs lines.length idx).mpr hcon) hidx
        have h2 : ((idx : Int) * ((chunk_size : Int) - 10)) =
            ((idx * (chunk_size - 10) : Nat) : Int) := by
          push_cast [Nat.cast_sub (by omega : (10 : Nat) ≤ chunk_size)]
          ring
        rw [h2]
        exact_mod_cast h1
      rw [windowLoopF, if_neg hguard]
      have : numWindows lines.length (chunk_size - 10) - idx = 0 := by omega
      rw [this]
      simp

theorem create_level4_eq (md5hex : String → String) (fp : String)
    (content : List Char) (chunk_size : Nat) (hcs : 11 ≤ chunk_size) :
    create_level4_chunks md5hex fp content chunk_size =
      some (level4_function_chunks md5hex fp content ++
        windowChunksSpec md5hex fp (splitNl content) chunk_size) := by
  have hs : 1 ≤ chunk_size - 10 := by omega
  have hfuel : numWindows (splitNl content).length (chunk_size - 10) - 0 ≤
      (splitNl content).length := by
    have := numWindows_le (splitNl content).length hs
    omega
  have h0 : ((0 : Nat) : Int) * ((chunk_size : Int) - 10) = 0 := by simp
  have := windowLoopF_eq md5hex fp (splitNl content) chunk_size hcs
    (splitNl content).length 0 [] hfuel
  rw [h0] at this
  rw [create_level4_chunks, this]
  rw [windowChunksSpec, List.range_eq_range']
  simp

theorem create_all_none (md5hex : String → String) (fp : String)
    (contentS : String) (chunk_size : Nat) (hcs : chunk_size ≤ 10) :
    create_all_chunks md5hex fp contentS chunk_size = none := by
  have hlen : 1 ≤ (splitNl contentS.toList).length := by
    rw [splitNl_length]
    omega
  have hw := windowLoopF_none md5hex fp (splitNl contentS.toList) chunk_size hlen hcs
    (splitNl contentS.toList).length 0 (by omega) 0 []
  rw [create_all_chunks, create_level4_chunks, hw]
  rfl

theorem create_all_some {md5hex : String → String} {fp : String}
    {contentS : String} {chunk_size : Nat} {chunks : List Chunk}
    (hall : create_all_chunks md5hex fp contentS chunk_size = some chunks) :
    11 ≤ chunk_size ∧
    chunks = create_level0_chunk md5hex fp (extract_metadata contentS.toList) ::
      create_level1_chunk md5hex fp contentS.toList (extract_metadata contentS.toList) ::
      (create_level2_chunks md5hex fp contentS.toList ++
       create_level3_chunks md5hex fp contentS.toList ++
       (level4_function_chunks md5hex fp contentS.toList ++
        windowChunksSpec md5hex fp (splitNl contentS.toList) chunk_size)) := by
  by_cases hcs : 11 ≤ chunk_size
  · refine ⟨hcs, ?_⟩
    rw [create_all_chunks, create_level4_eq md5hex fp contentS.toList chunk_size hcs] at hall
    simp only [Option.map_some'] at hall
    exact (Option.some.inj hall).symm
  · rw [create_all_none md5hex fp contentS chunk_size (by omega)] at hall
    exact Option.noConfusion hall

/-! ## Field facts for each chunk constructor -/

theorem toList_mk (l : List Char) : (String.mk l).toList = l := rfl

theorem level3_chunk_facts {md5hex : String → String} {fp : String}
    {content : List Char} {m : Nat × String × Nat} {c : Chunk}
    (h : level3_chunk md5hex fp content m = some c) :
    c.chunk_type = "function_preview" ∧ c.detail_level = 3 ∧
    c.function_name = some m.2.1 ∧ c.class_name = none ∧
    c.start_line = (countNl (content.take m.1) : Int) ∧
    c.end_line = (countNl (content.take (m.2.2 + scanL3 (content.drop m.2.2) 1 0)) : Int) ∧
    c.id = md5hex (fp ++ "_" ++ m.2.1 ++ "_L3_" ++
      toString (countNl (content.take m.1))) ∧
    c.content = String.mk (listSub content m.1 (m.2.2 + scanL3 (content.drop m.2.2) 1 0)) ∧
    20 ≤ (pyStrip c.content.toList).length := by
  simp only [level3_chunk] at h
  split at h
  · exact Option.noConfusion h
  · rename_i hcond
    have hc := Option.some.inj h
    subst hc
    refine ⟨rfl, rfl, rfl, rfl, rfl, rfl, rfl, rfl, ?_⟩
    show 20 ≤ (pyStrip (String.mk _).toList).length
    rw [toList_mk]
    omega

theorem level4_function_chunk_facts {md5hex : String → String} {fp : String}
    {content : List Char} {m : Nat × String × Nat} {c : Chunk}
    (h : level4_function_chunk md5hex fp content m = some c) :
    c.chunk_type = "function_full" ∧ c.detail_level = 4 ∧
    c.function_name = some m.2.1 ∧ c.class_name = none ∧
    c.start_line = (countNl (content.take m.1) : Int) ∧
    c.end_line = (countNl (content.take (m.2.2 + scanL4 (content.drop m.2.2) 1)) : Int) ∧
    c.id = md5hex (fp ++ "_" ++ m.2.1 ++ "_L4_" ++
      toString (countNl (content.take m.1))) ∧
    c.content = String.mk (listSub content m.1 (m.2.2 + scanL4 (content.drop m.2.2) 1)) ∧
    50 ≤ (pyStrip c.content.toList).length := by
  simp only [level4_function_chunk] at h
  split at h
  · exact Option.noConfusion h
  · rename_i hcond
    have hc := Option.some.inj h
    subst hc
    refine ⟨rfl, rfl, rfl, rfl, rfl, rfl, rfl, rfl, ?_⟩
    show 50 ≤ (pyStrip (String.mk _).toList).length
    rw [toList_mk]
    omega

theorem mem_create_level2 {md5hex : String → String} {fp : String}
    {content : List Char} {c : Chunk}
    (h : c ∈ create_level2_chunks md5hex fp content) :
    ∃ m ∈ classMatches content,
      c.chunk_type = "class_summary" ∧ c.detail_level = 2 ∧
      c.class_name = some m.2.1 ∧ c.function_name = none ∧
      c.id = md5hex (fp ++ "_" ++ m.2.1 ++ "_L2") ∧
      c.start_line = (countNl (content.take m.1) : Int) ∧
      c.end_line = (countNl (content.take (m.2.2 + scanL2 (content.drop m.2.2) 1 0)) : Int) := by
  rw [create_level2_chunks] at h
  obtain ⟨m, hm, rfl⟩ := List.mem_map.mp h
  exact ⟨m, hm, rfl, rfl, rfl, rfl, rfl, rfl, rfl⟩

theorem window_chunk_fields (md5hex : String → String) (fp : String)
    (lines : List (List Char)) (chunk_size : Nat) (pos : Int) (idx : Nat) :
    (window_chunk md5hex fp lines chunk_size pos idx).chunk_type = "code_block" ∧
    (window_chunk md5hex fp lines chunk_size pos idx).detail_level = 4 ∧
    (window_chunk md5hex fp lines chunk_size pos idx).class_name = none ∧
    (window_chunk md5hex fp lines chunk_size pos idx).function_name = none ∧
    (window_chunk md5hex fp lines chunk_size pos idx).id =
      md5hex (fp ++ "_L4_block_" ++ toString idx) ∧
    (window_chunk md5hex fp lines chunk_size pos idx).start_line = pos ∧
    (window_chunk md5hex fp lines chunk_size pos idx).end_line =
      pos + ((pySlice lines pos (pos + (chunk_size : Int))).length : Int) ∧
    (window_chunk md5hex fp lines chunk_size pos idx).content =
      String.mk (joinNl (pySlice lines pos (pos + (chunk_size : Int)))) :=
  ⟨rfl, rfl, rfl, rfl, rfl, rfl, rfl, rfl⟩

theorem mem_windowChunksSpec {md5hex : String → String} {fp : String}
    {lines : List (List Char)} {chunk_size : Nat} {c : Chunk}
    (h : c ∈ windowChunksSpec md5hex fp lines chunk_size) :
    ∃ i, i < numWindows lines.length (chunk_size - 10) ∧
      c = window_chunk md5hex fp lines chunk_size
        ((i : Int) * ((chunk_size : Int) - 10)) i ∧
      50 < (pyStrip (windowText lines chunk_size i)).length := by
  rw [windowChunksSpec] at h
  obtain ⟨i, hi, hemit⟩ := List.mem_filterMap.mp h
  rw [windowEmit] at hemit
  split at hemit
  · rename_i hcond
    exact ⟨i, List.mem_range.mp hi, (Option.some.inj hemit).symm, hcond⟩
  · exact Option.noConfusion hemit

theorem pySlice_length_bound {α : Type} (l : List α) (a b : Int)
    (ha : 0 ≤ a) (hlt : a < (l.length : Int)) :
    ((pySlice l a b).length : Int) ≤ (l.length : Int) - a := by
  simp only [pySlice, pySliceIdx, List.length_drop, List.length_take]
  split <;> split <;> omega

theorem pySlice_length_nonneg {α : Type} (l : List α) (a b : Int) :
    0 ≤ ((pySlice l a b).length : Int) := by
  omega

/-! ## Order-transfer helper -/

theorem pairwise_filterMap_of {α β : Type} {R : α → α → Prop} {S : β → β → Prop}
    (f : α → Option β)
    (hf : ∀ a b, R a b → ∀ x, f a = some x → ∀ y, f b = some y → S x y) :
    ∀ {l : List α}, l.Pairwise R → (l.filterMap f).Pairwise S := by
  intro l hl
  induction hl with
  | nil => simp
  | @cons a l' ha hl' ih =>
    rw [List.filterMap_cons]
    cases hfa : f a with
    | none => exact ih
    | some x =>
      refine List.Pairwise.cons ?_ ih
      intro y hy
      obtain ⟨b, hb, hfb⟩ := List.mem_filterMap.mp hy
      exact hf a b (ha b hb) x hfa y hfb

theorem level0_fields (md5hex : String → String) (fp : String) (meta : FileMetadata) :
    (create_level0_chunk md5hex fp meta).chunk_type = "file_summary" ∧
    (create_level0_chunk md5hex fp meta).detail_level = 0 ∧
    (create_level0_chunk md5hex fp meta).start_line = 0 ∧
    (create_level0_chunk md5hex fp meta).end_line = 0 ∧
    (create_level0_chunk md5hex fp meta).id = md5hex fp ++ "_L0" :=
  ⟨rfl, rfl, rfl, rfl, rfl⟩

theorem level1_fields (md5hex : String → String) (fp : String) (content : List Char)
    (meta : FileMetadata) :
    (create_level1_chunk md5hex fp content meta).chunk_type = "file_overview" ∧
    (create_level1_chunk md5hex fp content meta).detail_level = 1 ∧
    (create_level1_chunk md5hex fp content meta).start_line = 0 ∧
    (create_level1_chunk md5hex fp content meta).end_line = 30 ∧
    (create_level1_chunk md5hex fp content meta).id = md5hex fp ++ "_L1" :=
  ⟨rfl, rfl, rfl, rfl, rfl⟩

/-- Case analysis: where a chunk of a successful `create_all_chunks` run comes from. -/
theorem mem_create_all_cases {md5hex : String → String} {fp contentS : String}
    {chunk_size : Nat} {chunks : List Chunk} {c : Chunk}
    (hall : create_all_chunks md5hex fp contentS chunk_size = some chunks)
    (hc : c ∈ chunks) :
    c = create_level0_chunk md5hex fp (extract_metadata contentS.toList) ∨
    c = create_level1_chunk md5hex fp contentS.toList (extract_metadata contentS.toList) ∨
    c ∈ create_level2_chunks md5hex fp contentS.toList ∨
    (∃ m ∈ functionMatches contentS.toList,
      level3_chunk md5hex fp contentS.toList m = some c) ∨
    (∃ m ∈ functionMatches contentS.toList,
      level4_function_chunk md5hex fp contentS.toList m = some c) ∨
    c ∈ windowChunksSpec md5hex fp (splitNl contentS.toList) chunk_size := by
  obtain ⟨hcs, hform⟩ := create_all_some hall
  subst hform
  rcases List.mem_cons.mp hc with rfl | hc
  · exact Or.inl rfl
  rcases List.mem_cons.mp hc with rfl | hc
  · exact Or.inr (Or.inl rfl)
  rcases List.mem_append.mp hc with hc | hc
  · rcases List.mem_append.mp hc with hc | hc
    · exact Or.inr (Or.inr (Or.inl hc))
    · rw [create_level3_chunks] at hc
      exact Or.inr (Or.inr (Or.inr (Or.inl (List.mem_filterMap.mp hc))))
  · rcases List.mem_append.mp hc with hc | hc
    · rw [level4_function_chunks] at hc
      exact Or.inr (Or.inr (Or.inr (Or.inr (Or.inl (List.mem_filterMap.mp hc)))))
    · exact Or.inr (Or.inr (Or.inr (Or.inr (Or.inr hc))))

/-! ## Claim theorems -/

/-- C1: for a fixed input triple `(filePath, content, windowSize)`, two runs of
`create_all_chunks` return identical chunk lists (same ids, same content
strings, same order); the embedding is a pure function of its arguments, so no
chunk id or content can depend on wall-clock time, randomness, or iteration
order. -/
theorem create_all_chunks_deterministic (md5hex : String → String)
    (fp contentS : String) (chunk_size : Nat) (r1 r2 : Option (List Chunk))
    (h1 : create_all_chunks md5hex fp contentS chunk_size = r1)
    (h2 : create_all_chunks md5hex fp contentS chunk_size = r2) : r1 = r2 :=
  h1.symm.trans h2

theorem create_all_chunks_deterministic_witness :
    create_all_chunks identityHash "a.cpp" "x" 50 =
      create_all_chunks identityHash "a.cpp" "x" 50 :=
  create_all_chunks_deterministic identityHash "a.cpp" "x" 50 _ _ rfl rfl

/-- C4 counterexample: with `windowSize = 10` the sliding-window stride
`chunk_size - 10` is zero, so the loop guard never changes and chunking never
terminates (modelled as `none`), even on a one-character file — refuting
"terminates for every value of windowSize". -/
theorem create_all_chunks_windowSize10_diverges :
    create_all_chunks identityHash "t.cpp" "x" 10 = none := by decide

/-- C4 (amended): chunking one file terminates if and only if the window size
is at least 11: for `chunk_size ≥ 11` the sliding-window loop finishes within
`lines.length` iterations (fuel `lines.length` suffices), while for
`chunk_size ≤ 10` the stride `chunk_size - 10` is nonpositive and the loop
never terminates, for every file content. -/
theorem create_all_chunks_terminates_iff (md5hex : String → String)
    (fp contentS : String) (chunk_size : Nat) :
    (11 ≤ chunk_size → (create_all_chunks md5hex fp contentS chunk_size).isSome = true) ∧
    (chunk_size ≤ 10 → create_all_chunks md5hex fp contentS chunk_size = none) := by
  constructor
  · intro hcs
    rw [create_all_chunks, create_level4_eq md5hex fp contentS.toList chunk_size hcs]
    rfl
  · intro hcs
    exact create_all_none md5hex fp contentS chunk_size hcs

theorem create_all_chunks_terminates_iff_witness :
    (11 ≤ 11 ∧ (create_all_chunks identityHash "t.cpp" "x" 11).isSome = true) ∧
    ((10 : Nat) ≤ 10 ∧ create_all_chunks identityHash "t.cpp" "y" 10 = none) :=
  ⟨⟨by decide, (create_all_chunks_terminates_iff identityHash "t.cpp" "x" 11).1 (by decide)⟩,
   ⟨by decide, (create_all_chunks_terminates_iff identityHash "t.cpp" "y" 10).2 (by decide)⟩⟩

/-- C8: every successful chunking run of a non-empty file yields exactly one
Level-0 (`file_summary`) chunk and at most one Level-1 (`file_overview`)
chunk. -/
theorem exactly_one_level0_at_most_one_level1 {md5hex : String → String}
    {fp contentS : String} {chunk_size : Nat} {chunks : List Chunk}
    (hne : contentS ≠ "")
    (hall : create_all_chunks md5hex fp contentS chunk_size = some chunks) :
    chunks.countP (fun c => c.detail_level == 0) = 1 ∧
    chunks.countP (fun c => c.detail_level == 1) ≤ 1 := by
  obtain ⟨hcs, hform⟩ := create_all_some hall
  rw [hform]
  have hzero : ∀ (lvl : Nat), lvl ≤ 1 →
      (create_level2_chunks md5hex fp contentS.toList ++
        create_level3_chunks md5hex fp contentS.toList ++
        (level4_function_chunks md5hex fp contentS.toList ++
         windowChunksSpec md5hex fp (splitNl contentS.toList) chunk_size)).countP
        (fun c => c.detail_level == lvl) = 0 := by
    intro lvl hlvl
    rw [List.countP_eq_zero]
    intro c hc
    have h2le : 2 ≤ c.detail_level := by
      rcases List.mem_append.mp hc with hx | hx
      · rcases List.mem_append.mp hx with hx | hx
        · obtain ⟨m, _, _, hlv, _⟩ := mem_create_level2 hx
          omega
        · rw [create_level3_chunks] at hx
          obtain ⟨m, _, hx⟩ := List.mem_filterMap.mp hx
          have := (level3_chunk_facts hx).2.1
          omega
      · rcases List.mem_append.mp hx with hx | hx
        · rw [level4_function_chunks] at hx
          obtain ⟨m, _, hx⟩ := List.mem_filterMap.mp hx
          have := (level4_function_chunk_facts hx).2.1
          omega
        · obtain ⟨i, _, rfl, _⟩ := mem_windowChunksSpec hx
          have := (window_chunk_fields md5hex fp (splitNl contentS.toList) chunk_size
            ((i : Int) * ((chunk_size : Int) - 10)) i).2.1
          omega
    simp only [beq_iff_eq]
    omega
  constructor
  · rw [List.countP_cons, List.countP_cons, hzero 0 (by omega)]
    rw [(level0_fields md5hex fp (extract_metadata contentS.toList)).2.1,
      (level1_fields md5hex fp contentS.toList (extract_metadata contentS.toList)).2.1]
    decide
  · rw [List.countP_cons, List.countP_cons, hzero 1 (by omega)]
    rw [(level0_fields md5hex fp (extract_metadata contentS.toList)).2.1,
      (level1_fields md5hex fp contentS.toList (extract_metadata contentS.toList)).2.1]
    decide

theorem exactly_one_level0_at_most_one_level1_witness :
    ("x" : String) ≠ "" ∧
    (((create_all_chunks identityHash "w.cpp" "x" 50).getD []).countP
        (fun c => c.detail_level == 0) = 1 ∧
      ((create_all_chunks identityHash "w.cpp" "x" 50).getD []).countP
        (fun c => c.detail_level == 1) ≤ 1) :=
  ⟨by decide, @exactly_one_level0_at_most_one_level1 identityHash "w.cpp" "x" 50
    ((create_all_chunks identityHash "w.cpp" "x" 50).getD []) (by decide) (by decide)⟩

theorem toString_intCast (n : Nat) : toString ((n : Nat) : Int) = toString n := rfl

theorem window_pos_bounds {chunk_size : Nat} (hcs : 11 ≤ chunk_size)
    {nlines i : Nat} (hi : i < numWindows nlines (chunk_size - 10)) :
    0 ≤ ((i : Int) * ((chunk_size : Int) - 10)) ∧
    ((i : Int) * ((chunk_size : Int) - 10)) < (nlines : Int) := by
  have h1 : i * (chunk_size - 10) < nlines :=
    (lt_numWindows_iff (by omega) nlines i).mp hi
  have h2 : ((i : Int) * ((chunk_size : Int) - 10)) =
      ((i * (chunk_size - 10) : Nat) : Int) := by
    push_cast [Nat.cast_sub (by omega : (10 : Nat) ≤ chunk_size)]
    ring
  constructor
  · rw [h2]
    exact Int.ofNat_nonneg _
  · rw [h2]
    exact_mod_cast h1

/-- C6 counterexample: on a one-line file (`"x"`, newline count 0) the Level-1
chunk's `end_line` is the hardcoded 30, which exceeds the file's line count —
refuting "endLine does not exceed the file's line count". -/
theorem level1_end_line_exceeds_file :
    (((create_all_chunks identityHash "t.cpp" "x" 50).getD []).filter
        (fun c => decide (c.chunk_type = "file_overview"))).map (fun c => c.end_line) =
      [30] ∧
    countNl ("x" : String).toList = 0 := by decide

/-- C6 (amended): every chunk of a successful run satisfies
`0 ≤ startLine ≤ endLine`; `endLine` stays within the file's newline count for
class/function chunks, while the Level-1 chunk's `endLine` is hardcoded to 30
regardless of file length and a sliding-window chunk's `endLine` is an
exclusive bound that may reach newline count + 1. -/
theorem chunk_line_spans {md5hex : String → String} {fp contentS : String}
    {chunk_size : Nat} {chunks : List Chunk}
    (hall : create_all_chunks md5hex fp contentS chunk_size = some chunks) :
    ∀ c ∈ chunks,
      0 ≤ c.start_line ∧ c.start_line ≤ c.end_line ∧
      (c.chunk_type = "file_summary" → c.end_line = 0) ∧
      (c.chunk_type = "file_overview" → c.end_line = 30) ∧
      (c.chunk_type = "class_summary" ∨ c.chunk_type = "function_preview" ∨
        c.chunk_type = "function_full" →
        c.end_line ≤ (countNl contentS.toList : Int)) ∧
      (c.chunk_type = "code_block" →
        c.end_line ≤ (countNl contentS.toList : Int) + 1) := by
  intro c hc
  have hcs := (create_all_some hall).1
  rcases mem_create_all_cases hall hc with h | h | h | ⟨m, hm, h⟩ | ⟨m, hm, h⟩ | h
  · subst h
    obtain ⟨hty, _, hst, hen, _⟩ :=
      level0_fields md5hex fp (extract_metadata contentS.toList)
    refine ⟨by rw [hst], by rw [hst, hen], fun _ => hen,
      fun h => absurd (hty.symm.trans h) (by decide),
      fun h => by rcases h with h | h | h <;> exact absurd (hty.symm.trans h) (by decide),
      fun h => absurd (hty.symm.trans h) (by decide)⟩
  · subst h
    obtain ⟨hty, _, hst, hen, _⟩ :=
      level1_fields md5hex fp contentS.toList (extract_metadata contentS.toList)
    refine ⟨by rw [hst], by rw [hst, hen]; decide,
      fun h => absurd (hty.symm.trans h) (by decide), fun _ => hen,
      fun h => by rcases h with h | h | h <;> exact absurd (hty.symm.trans h) (by decide),
      fun h => absurd (hty.symm.trans h) (by decide)⟩
  · obtain ⟨m, hm, hty, _, _, _, _, hst, hen⟩ := mem_create_level2 h
    rw [classMatches] at hm
    obtain ⟨_, hse⟩ := mem_finditerF _ _ _ m hm
    have hmono : countNl (contentS.toList.take m.1) ≤
        countNl (contentS.toList.take (m.2.2 + scanL2 (contentS.toList.drop m.2.2) 1 0)) :=
      countNl_take_mono _ (by omega)
    have hle := countNl_take_le contentS.toList
      (m.2.2 + scanL2 (contentS.toList.drop m.2.2) 1 0)
    refine ⟨by rw [hst]; exact Int.ofNat_nonneg _,
      by rw [hst, hen]; exact_mod_cast hmono,
      fun h => absurd (hty.symm.trans h) (by decide),
      fun h => absurd (hty.symm.trans h) (by decide),
      fun _ => by rw [hen]; exact_mod_cast hle,
      fun h => absurd (hty.symm.trans h) (by decide)⟩
  · obtain ⟨hty, _, _, _, hst, hen, _, _, _⟩ := level3_chunk_facts h
    rw [functionMatches] at hm
    obtain ⟨_, hse⟩ := mem_finditerF _ _ _ m hm
    have hmono : countNl (contentS.toList.take m.1) ≤
        countNl (contentS.toList.take (m.2.2 + scanL3 (contentS.toList.drop m.2.2) 1 0)) :=
      countNl_take_mono _ (by omega)
    have hle := countNl_take_le contentS.toList
      (m.2.2 + scanL3 (contentS.toList.drop m.2.2) 1 0)
    refine ⟨by rw [hst]; exact Int.ofNat_nonneg _,
      by rw [hst, hen]; exact_mod_cast hmono,
      fun h => absurd (hty.symm.trans h) (by decide),
      fun h => absurd (hty.symm.trans h) (by decide),
      fun _ => by rw [hen]; exact_mod_cast hle,
      fun h => absurd (hty.symm.trans h) (by decide)⟩
  · obtain ⟨hty, _, _, _, hst, hen, _, _, _⟩ := level4_function_chunk_facts h
    rw [functionMatches] at hm
    obtain ⟨_, hse⟩ := mem_finditerF _ _ _ m hm
    have hmono : countNl (contentS.toList.take m.1) ≤
        countNl (contentS.toList.take (m.2.2 + scanL4 (contentS.toList.drop m.2.2) 1)) :=
      countNl_take_mono _ (by omega)
    have hle := countNl_take_le contentS.toList
      (m.2.2 + scanL4 (contentS.toList.drop m.2.2) 1)
    refine ⟨by rw [hst]; exact Int.ofNat_nonneg _,
      by rw [hst, hen]; exact_mod_cast hmono,
      fun h => absurd (hty.symm.trans h) (by decide),
      fun h => absurd (hty.symm.trans h) (by decide),
      fun _ => by rw [hen]; exact_mod_cast hle,
      fun h => absurd (hty.symm.trans h) (by decide)⟩
  · obtain ⟨i, hi, rfl, _⟩ := mem_windowChunksSpec h
    obtain ⟨hty, _, _, _, _, hst, hen, _⟩ := window_chunk_fields md5hex fp
      (splitNl contentS.toList) chunk_size ((i : Int) * ((chunk_size : Int) - 10)) i
    obtain ⟨hpos0, hposlt⟩ := window_pos_bounds hcs hi
    have hlenb := pySlice_length_bound (splitNl contentS.toList)
      ((i : Int) * ((chunk_size : Int) - 10))
      ((i : Int) * ((chunk_size : Int) - 10) + (chunk_size : Int)) hpos0 hposlt
    have hlen0 := pySlice_length_nonneg (splitNl contentS.toList)
      ((i : Int) * ((chunk_size : Int) - 10))
      ((i : Int) * ((chunk_size : Int) - 10) + (chunk_size : Int))
    have hsl : ((splitNl contentS.toList).length : Int) =
        (countNl contentS.toList : Int) + 1 := by
      rw [splitNl_length]
      push_cast
      ring
    refine ⟨by rw [hst]; exact hpos0,
      by rw [hst, hen]; omega,
      fun h => absurd (hty.symm.trans h) (by decide),
      fun h => absurd (hty.symm.trans h) (by decide),
      fun h => by rcases h with h | h | h <;> exact absurd (hty.symm.trans h) (by decide),
      fun _ => by rw [hen]; omega⟩

theorem chunk_line_spans_witness :
    ((create_all_chunks identityHash "v.cpp" "x" 50).getD []).getD 1 fallbackChunk ∈
      (create_all_chunks identityHash "v.cpp" "x" 50).getD [] ∧
    (0 ≤ (((create_all_chunks identityHash "v.cpp" "x" 50).getD []).getD 1
        fallbackChunk).start_line ∧
      (((create_all_chunks identityHash "v.cpp" "x" 50).getD []).getD 1
        fallbackChunk).start_line ≤
        (((create_all_chunks identityHash "v.cpp" "x" 50).getD []).getD 1
          fallbackChunk).end_line ∧
      ((((create_all_chunks identityHash "v.cpp" "x" 50).getD []).getD 1
          fallbackChunk).chunk_type = "file_summary" →
        (((create_all_chunks identityHash "v.cpp" "x" 50).getD []).getD 1
          fallbackChunk).end_line = 0) ∧
      ((((create_all_chunks identityHash "v.cpp" "x" 50).getD []).getD 1
          fallbackChunk).chunk_type = "file_overview" →
        (((create_all_chunks identityHash "v.cpp" "x" 50).getD []).getD 1
          fallbackChunk).end_line = 30) ∧
      ((((create_all_chunks identityHash "v.cpp" "x" 50).getD []).getD 1
          fallbackChunk).chunk_type = "class_summary" ∨
        (((create_all_chunks identityHash "v.cpp" "x" 50).getD []).getD 1
          fallbackChunk).chunk_type = "function_preview" ∨
        (((create_all_chunks identityHash "v.cpp" "x" 50).getD []).getD 1
          fallbackChunk).chunk_type = "function_full" →
        (((create_all_chunks identityHash "v.cpp" "x" 50).getD []).getD 1
          fallbackChunk).end_line ≤ (countNl ("x" : String).toList : Int)) ∧
      ((((create_all_chunks identityHash "v.cpp" "x" 50).getD []).getD 1
          fallbackChunk).chunk_type = "code_block" →
        (((create_all_chunks identityHash "v.cpp" "x" 50).getD []).getD 1
          fallbackChunk).end_line ≤ (countNl ("x" : String).toList : Int) + 1)) :=
  ⟨by decide,
   @chunk_line_spans identityHash "v.cpp" "x" 50
    ((create_all_chunks identityHash "v.cpp" "x" 50).getD []) (by decide)
    (((create_all_chunks identityHash "v.cpp" "x" 50).getD []).getD 1 fallbackChunk)
    (by decide)⟩

/-- C7: every chunk id follows the composite-key scheme of the source.
Level 0/1 ids are the file-path hash plus a level suffix; Level-2 ids hash
`filePath_className_L2`; Level-3/4 function ids hash
`filePath_functionName_L{3,4}_startLine`; Level-4 window ids hash
`filePath_L4_block_windowIndex` (the index equals `startLine / stride`); each
id is a pure function of exactly these components. -/
theorem chunk_id_scheme {md5hex : String → String} {fp contentS : String}
    {chunk_size : Nat} {chunks : List Chunk}
    (hall : create_all_chunks md5hex fp contentS chunk_size = some chunks) :
    ∀ c ∈ chunks,
      (c.chunk_type = "file_summary" → c.id = md5hex fp ++ "_L0") ∧
      (c.chunk_type = "file_overview" → c.id = md5hex fp ++ "_L1") ∧
      (c.chunk_type = "class_summary" → ∃ cn, c.class_name = some cn ∧
        c.id = md5hex (fp ++ "_" ++ cn ++ "_L2")) ∧
      (c.chunk_type = "function_preview" → ∃ fn, c.function_name = some fn ∧
        c.id = md5hex (fp ++ "_" ++ fn ++ "_L3_" ++ toString c.start_line)) ∧
      (c.chunk_type = "function_full" → ∃ fn, c.function_name = some fn ∧
        c.id = md5hex (fp ++ "_" ++ fn ++ "_L4_" ++ toString c.start_line)) ∧
      (c.chunk_type = "code_block" →
        c.id = md5hex (fp ++ "_L4_block_" ++
          toString (c.start_line / ((chunk_size : Int) - 10)))) := by
  intro c hc
  have hcs := (create_all_some hall).1
  rcases mem_create_all_cases hall hc with h | h | h | ⟨m, hm, h⟩ | ⟨m, hm, h⟩ | h
  · subst h
    obtain ⟨hty, _, _, _, hid⟩ :=
      level0_fields md5hex fp (extract_metadata contentS.toList)
    exact ⟨fun _ => hid,
      fun h => absurd (hty.symm.trans h) (by decide),
      fun h => absurd (hty.symm.trans h) (by decide),
      fun h => absurd (hty.symm.trans h) (by decide),
      fun h => absurd (hty.symm.trans h) (by decide),
      fun h => absurd (hty.symm.trans h) (by decide)⟩
  · subst h
    obtain ⟨hty, _, _, _, hid⟩ :=
      level1_fields md5hex fp contentS.toList (extract_metadata contentS.toList)
    exact ⟨fun h => absurd (hty.symm.trans h) (by decide), fun _ => hid,
      fun h => absurd (hty.symm.trans h) (by decide),
      fun h => absurd (hty.symm.trans h) (by decide),
      fun h => absurd (hty.symm.trans h) (by decide),
      fun h => absurd (hty.symm.trans h) (by decide)⟩
  · obtain ⟨m, hm, hty, _, hcn, _, hid, _, _⟩ := mem_create_level2 h
    exact ⟨fun h => absurd (hty.symm.trans h) (by decide),
      fun h => absurd (hty.symm.trans h) (by decide),
      fun _ => ⟨m.2.1, hcn, hid⟩,
      fun h => absurd (hty.symm.trans h) (by decide),
      fun h => absurd (hty.symm.trans h) (by decide),
      fun h => absurd (hty.symm.trans h) (by decide)⟩
  · obtain ⟨hty, _, hfn, _, hst, _, hid, _, _⟩ := level3_chunk_facts h
    exact ⟨fun h => absurd (hty.symm.trans h) (by decide),
      fun h => absurd (hty.symm.trans h) (by decide),
      fun h => absurd (hty.symm.trans h) (by decide),
      fun _ => ⟨m.2.1, hfn, by rw [hid, hst, toString_intCast]⟩,
      fun h => absurd (hty.symm.trans h) (by decide),
      fun h => absurd (hty.symm.trans h) (by decide)⟩
  · obtain ⟨hty, _, hfn, _, hst, _, hid, _, _⟩ := level4_function_chunk_facts h
    exact ⟨fun h => absurd (hty.symm.trans h) (by decide),
      fun h => absurd (hty.symm.trans h) (by decide),
      fun h => absurd (hty.symm.trans h) (by decide),
      fun h => absurd (hty.symm.trans h) (by decide),
      fun _ => ⟨m.2.1, hfn, by rw [hid, hst, toString_intCast]⟩,
      fun h => absurd (hty.symm.trans h) (by decide)⟩
  · obtain ⟨i, hi, rfl, _⟩ := mem_windowChunksSpec h
    obtain ⟨hty, _, _, _, hid, hst, _, _⟩ := window_chunk_fields md5hex fp
      (splitNl contentS.toList) chunk_size ((i : Int) * ((chunk_size : Int) - 10)) i
    have hdiv : ((i : Int) * ((chunk_size : Int) - 10)) / ((chunk_size : Int) - 10) =
        (i : Int) :=
      Int.mul_ediv_cancel (i : Int) (by omega : ((chunk_size : Int) - 10) ≠ 0)
    exact ⟨fun h => absurd (hty.symm.trans h) (by decide),
      fun h => absurd (hty.symm.trans h) (by decide),
      fun h => absurd (hty.symm.trans h) (by decide),
      fun h => absurd (hty.symm.trans h) (by decide),
      fun h => absurd (hty.symm.trans h) (by decide),
      fun _ => by rw [hid, hst, hdiv, toString_intCast]⟩

theorem chunk_id_scheme_witness :
    ((create_all_chunks identityHash "u.cpp" "x" 50).getD []).getD 0 fallbackChunk ∈
      (create_all_chunks identityHash "u.cpp" "x" 50).getD [] ∧
    (((((create_all_chunks identityHash "u.cpp" "x" 50).getD []).getD 0
        fallbackChunk).chunk_type = "file_summary" →
      ((((create_all_chunks identityHash "u.cpp" "x" 50).getD []).getD 0
        fallbackChunk)).id = identityHash "u.cpp" ++ "_L0") ∧
    ((((create_all_chunks identityHash "u.cpp" "x" 50).getD []).getD 0
        fallbackChunk).chunk_type = "file_overview" →
      ((((create_all_chunks identityHash "u.cpp" "x" 50).getD []).getD 0
        fallbackChunk)).id = identityHash "u.cpp" ++ "_L1") ∧
    ((((create_all_chunks identityHash "u.cpp" "x" 50).getD []).getD 0
        fallbackChunk).chunk_type = "class_summary" → ∃ cn,
      ((((create_all_chunks identityHash "u.cpp" "x" 50).getD []).getD 0
        fallbackChunk)).class_name = some cn ∧
      ((((create_all_chunks identityHash "u.cpp" "x" 50).getD []).getD 0
        fallbackChunk)).id = identityHash ("u.cpp" ++ "_" ++ cn ++ "_L2")) ∧
    ((((create_all_chunks identityHash "u.cpp" "x" 50).getD []).getD 0
        fallbackChunk).chunk_type = "function_preview" → ∃ fn,
      ((((create_all_chunks identityHash "u.cpp" "x" 50).getD []).getD 0
        fallbackChunk)).function_name = some fn ∧
      ((((create_all_chunks identityHash "u.cpp" "x" 50).getD []).getD 0
        fallbackChunk)).id = identityHash ("u.cpp" ++ "_" ++ fn ++ "_L3_" ++
          toString ((((create_all_chunks identityHash "u.cpp" "x" 50).getD []).getD 0
            fallbackChunk)).start_line)) ∧
    ((((create_all_chunks identityHash "u.cpp" "x" 50).getD []).getD 0
        fallbackChunk).chunk_type = "function_full" → ∃ fn,
      ((((create_all_chunks identityHash "u.cpp" "x" 50).getD []).getD 0
        fallbackChunk)).function_name = some fn ∧
      ((((create_all_chunks identityHash "u.cpp" "x" 50).getD []).getD 0
        fallbackChunk)).id = identityHash ("u.cpp" ++ "_" ++ fn ++ "_L4_" ++
          toString ((((create_all_chunks identityHash "u.cpp" "x" 50).getD []).getD 0
            fallbackChunk)).start_line)) ∧
    ((((create_all_chunks identityHash "u.cpp" "x" 50).getD []).getD 0
        fallbackChunk).chunk_type = "code_block" →
      ((((create_all_chunks identityHash "u.cpp" "x" 50).getD []).getD 0
        fallbackChunk)).id = identityHash ("u.cpp" ++ "_L4_block_" ++
          toString (((((create_all_chunks identityHash "u.cpp" "x" 50).getD []).getD 0
            fallbackChunk)).start_line / ((50 : Int) - 10))))) :=
  ⟨by decide,
   @chunk_id_scheme identityHash "u.cpp" "x" 50
    ((create_all_chunks identityHash "u.cpp" "x" 50).getD []) (by decide)
    (((create_all_chunks identityHash "u.cpp" "x" 50).getD []).getD 0 fallbackChunk)
    (by decide)⟩

/-- Shared helper: the only filters on function chunks are the size thresholds
(trimmed preview ≥ 20 characters at Level 3, trimmed full body ≥ 50 at Level 4). -/
theorem mem_chunks_size_filter {md5hex : String → String} {fp contentS : String}
    {chunk_size : Nat} {chunks : List Chunk}
    (hall : create_all_chunks md5hex fp contentS chunk_size = some chunks) :
    ∀ c ∈ chunks,
      (c.chunk_type = "function_preview" → 20 ≤ (pyStrip c.content.toList).length) ∧
      (c.chunk_type = "function_full" → 50 ≤ (pyStrip c.content.toList).length) := by
  intro c hc
  rcases mem_create_all_cases hall hc with h | h | h | ⟨m, hm, h⟩ | ⟨m, hm, h⟩ | h
  · subst h
    have hty := (level0_fields md5hex fp (extract_metadata contentS.toList)).1
    exact ⟨fun h => absurd (hty.symm.trans h) (by decide),
      fun h => absurd (hty.symm.trans h) (by decide)⟩
  · subst h
    have hty := (level1_fields md5hex fp contentS.toList (extract_metadata contentS.toList)).1
    exact ⟨fun h => absurd (hty.symm.trans h) (by decide),
      fun h => absurd (hty.symm.trans h) (by decide)⟩
  · obtain ⟨m, hm, hty, _⟩ := mem_create_level2 h
    exact ⟨fun h => absurd (hty.symm.trans h) (by decide),
      fun h => absurd (hty.symm.trans h) (by decide)⟩
  · obtain ⟨hty, _, _, _, _, _, _, _, hsz⟩ := level3_chunk_facts h
    exact ⟨fun _ => hsz, fun h => absurd (hty.symm.trans h) (by decide)⟩
  · obtain ⟨hty, _, _, _, _, _, _, _, hsz⟩ := level4_function_chunk_facts h
    exact ⟨fun h => absurd (hty.symm.trans h) (by decide), fun _ => hsz⟩
  · obtain ⟨i, hi, rfl, _⟩ := mem_windowChunksSpec h
    have hty := (window_chunk_fields md5hex fp (splitNl contentS.toList) chunk_size
      ((i : Int) * ((chunk_size : Int) - 10)) i).1
    exact ⟨fun h => absurd (hty.symm.trans h) (by decide),
      fun h => absurd (hty.symm.trans h) (by decide)⟩

/-- C3 counterexample: the chunker has no control-flow-keyword filter. For the
input `"if (someConditionHolds) {\n  doWork(); doMore();\n}"` the signature
pattern captures the name `if`, and a Level-3 chunk with
`functionName == "if"` is produced — refuting "a candidate named `if` never
yields a Level-3 or Level-4 function chunk". -/
theorem if_candidate_produces_chunk :
    (((create_all_chunks identityHash "t.cpp" c3input 50).getD []).filter
      (fun c => decide (c.function_name = some "if" ∧
        c.chunk_type = "function_preview"))).length = 1 := by decide

/-- C3 (amended): function-signature candidates are skipped only by the size
thresholds — every emitted Level-3 chunk has a trimmed preview of at least 20
characters and every Level-4 function chunk a trimmed body of at least 50 —
and never because the captured name is a control-flow keyword (that skip list
exists only in the separate docs generator, not in the chunker). -/
theorem function_candidate_filters {md5hex : String → String} {fp contentS : String}
    {chunk_size : Nat} {chunks : List Chunk}
    (hall : create_all_chunks md5hex fp contentS chunk_size = some chunks) :
    ∀ c ∈ chunks,
      (c.chunk_type = "function_preview" → 20 ≤ (pyStrip c.content.toList).length) ∧
      (c.chunk_type = "function_full" → 50 ≤ (pyStrip c.content.toList).length) :=
  mem_chunks_size_filter hall

theorem function_candidate_filters_witness :
    ((create_all_chunks identityHash "f.cpp" c3input 50).getD []).getD 2 fallbackChunk ∈
      (create_all_chunks identityHash "f.cpp" c3input 50).getD [] ∧
    ((((create_all_chunks identityHash "f.cpp" c3input 50).getD []).getD 2
        fallbackChunk).chunk_type = "function_preview" →
      20 ≤ (pyStrip ((((create_all_chunks identityHash "f.cpp" c3input 50).getD []).getD 2
        fallbackChunk).content.toList)).length) ∧
    ((((create_all_chunks identityHash "f.cpp" c3input 50).getD []).getD 2
        fallbackChunk).chunk_type = "function_full" →
      50 ≤ (pyStrip ((((create_all_chunks identityHash "f.cpp" c3input 50).getD []).getD 2
        fallbackChunk).content.toList)).length) :=
  ⟨by decide,
   @function_candidate_filters identityHash "f.cpp" c3input 50
    ((create_all_chunks identityHash "f.cpp" c3input 50).getD []) (by decide)
    (((create_all_chunks identityHash "f.cpp" c3input 50).getD []).getD 2 fallbackChunk)
    (by decide)⟩

/-- C9 counterexample: a file of exactly 50 non-whitespace characters trims to
exactly 50 characters, yet its single window produces no `code_block` chunk —
the source filter is `len(stripped) > 50`, strict, so "50 characters or more
is emitted" fails at exactly 50. -/
theorem fifty_char_window_dropped :
    (pyStrip c9input.toList).length = 50 ∧
    ((create_all_chunks identityHash "t.cpp" c9input 50).getD []).filter
      (fun c => decide (c.chunk_type = "code_block")) = [] := by decide

/-- C9 (amended): a sliding-window `code_block` chunk is emitted for a window
if and only if the window's trimmed content has strictly more than 50
characters; windows at or below 50 trimmed characters are dropped silently. -/
theorem code_block_emission {md5hex : String → String} {fp contentS : String}
    {chunk_size : Nat} {chunks : List Chunk}
    (hall : create_all_chunks md5hex fp contentS chunk_size = some chunks) :
    (∀ c ∈ chunks, c.chunk_type = "code_block" →
      50 < (pyStrip c.content.toList).length) ∧
    (∀ i, i < numWindows (splitNl contentS.toList).length (chunk_size - 10) →
      50 < (pyStrip (windowText (splitNl contentS.toList) chunk_size i)).length →
      ∃ c ∈ chunks, c.chunk_type = "code_block" ∧
        c.start_line = (i : Int) * ((chunk_size : Int) - 10) ∧
        c.content = String.mk (windowText (splitNl contentS.toList) chunk_size i)) := by
  constructor
  · intro c hc hty'
    rcases mem_create_all_cases hall hc with h | h | h | ⟨m, hm, h⟩ | ⟨m, hm, h⟩ | h
    · subst h
      exact absurd (((level0_fields md5hex fp
        (extract_metadata contentS.toList)).1).symm.trans hty') (by decide)
    · subst h
      exact absurd (((level1_fields md5hex fp contentS.toList
        (extract_metadata contentS.toList)).1).symm.trans hty') (by decide)
    · obtain ⟨m, _, hty, _⟩ := mem_create_level2 h
      exact absurd (hty.symm.trans hty') (by decide)
    · exact absurd (((level3_chunk_facts h).1).symm.trans hty') (by decide)
    · exact absurd (((level4_function_chunk_facts h).1).symm.trans hty') (by decide)
    · obtain ⟨i, hi, rfl, hcond⟩ := mem_windowChunksSpec h
      have hcontent := (window_chunk_fields md5hex fp (splitNl contentS.toList)
        chunk_size ((i : Int) * ((chunk_size : Int) - 10)) i).2.2.2.2.2.2.2
      rw [hcontent, toList_mk]
      rw [windowText] at hcond
      exact hcond
  · intro i hi hcond
    refine ⟨window_chunk md5hex fp (splitNl contentS.toList) chunk_size
      ((i : Int) * ((chunk_size : Int) - 10)) i, ?_, rfl, rfl, ?_⟩
    · obtain ⟨hcs, hform⟩ := create_all_some hall
      rw [hform]
      refine List.mem_cons_of_mem _ (List.mem_cons_of_mem _
        (List.mem_append_right _ (List.mem_append_right _ ?_)))
      rw [windowChunksSpec]
      refine List.mem_filterMap.mpr ⟨i, List.mem_range.mpr hi, ?_⟩
      rw [windowEmit, if_pos hcond]
    · rw [windowText]
      rfl

theorem code_block_emission_witness :
    (∀ c ∈ (create_all_chunks identityHash "g.cpp" c9input 50).getD [],
      c.chunk_type = "code_block" → 50 < (pyStrip c.content.toList).length) ∧
    (∀ i, i < numWindows (splitNl c9input.toList).length (50 - 10) →
      50 < (pyStrip (windowText (splitNl c9input.toList) 50 i)).length →
      ∃ c ∈ (create_all_chunks identityHash "g.cpp" c9input 50).getD [],
        c.chunk_type = "code_block" ∧
        c.start_line = (i : Int) * ((50 : Int) - 10) ∧
        c.content = String.mk (windowText (splitNl c9input.toList) 50 i)) :=
  @code_block_emission identityHash "g.cpp" c9input 50
    ((create_all_chunks identityHash "g.cpp" c9input 50).getD []) (by decide)

/-- C5 counterexample: the Level-3 scan `break`s before `pos += 1`, so the
Level-3 preview for `"void run() {\n  doWork();\n}"` stops at, and does not
include, the closing brace — refuting "the extracted span includes that
closing brace" for the bounded Level-3 flavor. -/
theorem level3_preview_excludes_closing_brace :
    ((((create_all_chunks identityHash "t.cpp" c5input 50).getD []).filter
      (fun c => decide (c.chunk_type = "function_preview"))).map
        (fun c => c.content)) = ["void run() \x7b\n  doWork();\n"] ∧
    ("void run() \x7b\n  doWork();\n" : String).toList.contains '\x7d' = false := by
  decide

/-- C5 (amended): the unbounded Level-4 scan and the bounded Level-2 scan stop
and return the offset immediately after the brace that brings the depth to 0
(that brace is the last consumed character), unless end-of-text or — for
Level 2 — the 20-line bound strikes first. The Level-3 scan instead stops AT
the closing brace without consuming it: the depth over the consumed span stays
at least 1, and at a brace-closure stop the character at the returned offset is
the `}` that would have brought the depth to 0. -/
theorem brace_scan_stop_positions (cs : List Char) (bc : Int) (hbc : 1 ≤ bc) :
    (scanL4 cs bc = cs.length ∨
      (1 ≤ scanL4 cs bc ∧ cs.get? (scanL4 cs bc - 1) = some '\x7d' ∧
        depthAfter cs (scanL4 cs bc) bc = 0)) ∧
    (scanL2 cs bc 0 = cs.length ∨ 20 ≤ countNl (cs.take (scanL2 cs bc 0)) ∨
      (1 ≤ scanL2 cs bc 0 ∧ cs.get? (scanL2 cs bc 0 - 1) = some '\x7d' ∧
        depthAfter cs (scanL2 cs bc 0) bc = 0)) ∧
    (1 ≤ depthAfter cs (scanL3 cs bc 0) bc) ∧
    (scanL3 cs bc 0 = cs.length ∨ 15 ≤ countNl (cs.take (scanL3 cs bc 0)) ∨
      (cs.get? (scanL3 cs bc 0) = some '\x7d' ∧
        depthAfter cs (scanL3 cs bc 0) bc = 1)) := by
  refine ⟨(scanL4_spec cs bc hbc).2, ?_, scanL3_depth cs bc 0 hbc, ?_⟩
  · have := scanL2_stop cs bc 0 hbc
    rw [Nat.zero_add] at this
    exact this
  · have := scanL3_stop cs bc 0 hbc
    rw [Nat.zero_add] at this
    exact this

theorem brace_scan_stop_positions_witness :
    (1 : Int) ≤ 1 ∧
    ((scanL4 ("\x7d" : String).toList 1 = ("\x7d" : String).toList.length ∨
      (1 ≤ scanL4 ("\x7d" : String).toList 1 ∧
        ("\x7d" : String).toList.get? (scanL4 ("\x7d" : String).toList 1 - 1) =
          some '\x7d' ∧
        depthAfter ("\x7d" : String).toList (scanL4 ("\x7d" : String).toList 1) 1 = 0)) ∧
    (scanL2 ("\x7d" : String).toList 1 0 = ("\x7d" : String).toList.length ∨
      20 ≤ countNl (("\x7d" : String).toList.take (scanL2 ("\x7d" : String).toList 1 0)) ∨
      (1 ≤ scanL2 ("\x7d" : String).toList 1 0 ∧
        ("\x7d" : String).toList.get? (scanL2 ("\x7d" : String).toList 1 0 - 1) =
          some '\x7d' ∧
        depthAfter ("\x7d" : String).toList (scanL2 ("\x7d" : String).toList 1 0) 1 = 0)) ∧
    (1 ≤ depthAfter ("\x7d" : String).toList (scanL3 ("\x7d" : String).toList 1 0) 1) ∧
    (scanL3 ("\x7d" : String).toList 1 0 = ("\x7d" : String).toList.length ∨
      15 ≤ countNl (("\x7d" : String).toList.take (scanL3 ("\x7d" : String).toList 1 0)) ∨
      (("\x7d" : String).toList.get? (scanL3 ("\x7d" : String).toList 1 0) =
          some '\x7d' ∧
        depthAfter ("\x7d" : String).toList (scanL3 ("\x7d" : String).toList 1 0) 1 = 1))) :=
  ⟨by decide, brace_scan_stop_positions ("\x7d" : String).toList 1 (by decide)⟩

/-- C2 counterexample: on ten newlines followed by
`"void run() {\n  doWork();\n}"`, the pattern matches at line 10 capturing
`run`, but NO Level-4 `function_full` chunk is produced: the full trimmed body
has 26 characters, under the 50-character Level-4 minimum — refuting "also a
Level-4 function_full chunk ... is produced". -/
theorem run_scenario_no_function_full :
    functionMatches c2input.toList = [(10, "run", 22)] ∧
    countNl (c2input.toList.take 10) = 10 ∧
    ((create_all_chunks identityHash "t.cpp" c2input 50).getD []).filter
      (fun c => decide (c.chunk_type = "function_full")) = [] := by decide

/-- C2 (amended): whenever `FUNCTION_PATTERN` matches `"void run() {"` at a
position `p` on 0-based line 10 and the text continues with the scenario's
body, the run produces a Level-3 chunk with `functionName = "run"`,
`startLine = 10` and the preview text (which stops at the closing brace);
a Level-4 `function_full` chunk with the same name appears only when the
trimmed full body reaches 50 characters — not the case for this 26-character
body. -/
theorem run_scenario {md5hex : String → String} {fp contentS : String}
    {chunk_size p : Nat} {chunks : List Chunk}
    (hall : create_all_chunks md5hex fp contentS chunk_size = some chunks)
    (hmem : (p, "run", p + 12) ∈ functionMatches contentS.toList)
    (hpre : runFuncText.toList <+: contentS.toList.drop p)
    (hline : countNl (contentS.toList.take p) = 10) :
    (∃ c ∈ chunks, c.chunk_type = "function_preview" ∧
      c.function_name = some "run" ∧ c.start_line = 10 ∧
      c.content = "void run() \x7b\n  doWork();\n") ∧
    (∀ c ∈ chunks, c.chunk_type = "function_full" →
      50 ≤ (pyStrip c.content.toList).length) := by
  obtain ⟨t, ht⟩ := hpre
  have hdd : contentS.toList.drop (p + 12) = (contentS.toList.drop p).drop 12 := by
    rw [List.drop_drop]
  have hdrop : contentS.toList.drop (p + 12) = "\n  doWork();\n\x7d".toList ++ t := by
    rw [hdd, ← ht]
    rfl
  have hscan : scanL3 (contentS.toList.drop (p + 12)) 1 0 = 13 := by
    rw [hdrop]
    rfl
  have hpreview : listSub contentS.toList p (p + 12 + 13) =
      "void run() \x7b\n  doWork();\n".toList := by
    rw [listSub, List.drop_take]
    have h25 : p + 12 + 13 - p = 25 := by omega
    rw [h25, ← ht,
      List.take_append_of_le_length (by decide : 25 ≤ runFuncText.toList.length)]
    rfl
  have hsome : (level3_chunk md5hex fp contentS.toList (p, "run", p + 12)).isSome = true := by
    simp only [level3_chunk]
    rw [hscan, hpreview,
      if_neg (by decide : ¬ (pyStrip ("void run() \x7b\n  doWork();\n".toList)).length < 20)]
    rfl
  obtain ⟨c, hc⟩ := Option.isSome_iff_exists.mp hsome
  obtain ⟨hty, _, hfn, _, hst, _, _, hcontent, _⟩ := level3_chunk_facts hc
  have hcontent' : c.content = String.mk (listSub contentS.toList p
      (p + 12 + scanL3 (contentS.toList.drop (p + 12)) 1 0)) := hcontent
  rw [hscan, hpreview] at hcontent'
  constructor
  · refine ⟨c, ?_, hty, by rw [hfn], by rw [hst, hline]; rfl, by rw [hcontent']; decide⟩
    obtain ⟨hcs, hform⟩ := create_all_some hall
    rw [hform]
    refine List.mem_cons_of_mem _ (List.mem_cons_of_mem _
      (List.mem_append_left _ (List.mem_append_right _ ?_)))
    rw [create_level3_chunks]
    exact List.mem_filterMap.mpr ⟨(p, "run", p + 12), hmem, hc⟩
  · intro c' hc' hty'
    exact (mem_chunks_size_filter hall c' hc').2 hty'

theorem run_scenario_witness :
    (∃ c ∈ (create_all_chunks identityHash "r.cpp" c2input 50).getD [],
      c.chunk_type = "function_preview" ∧ c.function_name = some "run" ∧
      c.start_line = 10 ∧ c.content = "void run() \x7b\n  doWork();\n") ∧
    (∀ c ∈ (create_all_chunks identityHash "r.cpp" c2input 50).getD [],
      c.chunk_type = "function_full" → 50 ≤ (pyStrip c.content.toList).length) :=
  @run_scenario identityHash "r.cpp" c2input 50 10
    ((create_all_chunks identityHash "r.cpp" c2input 50).getD [])
    (by decide) (by decide) (by decide) (by decide)

theorem windowEmit_some {md5hex : String → String} {fp : String}
    {lines : List (List Char)} {chunk_size i : Nat} {c : Chunk}
    (h : windowEmit md5hex fp lines chunk_size i = some c) :
    c = window_chunk md5hex fp lines chunk_size
      ((i : Int) * ((chunk_size : Int) - 10)) i := by
  rw [windowEmit] at h
  split at h
  · exact (Option.some.inj h).symm
  · exact Option.noConfusion h

/-- Type, level and start-line facts shared by all chunks of each level group. -/
theorem group_facts (md5hex : String → String) (fp : String) (content : List Char)
    (lines : List (List Char)) (chunk_size : Nat) (hcs : 11 ≤ chunk_size) :
    (∀ c ∈ create_level2_chunks md5hex fp content,
      c.chunk_type = "class_summary" ∧ c.detail_level = 2 ∧ 0 ≤ c.start_line) ∧
    (∀ c ∈ create_level3_chunks md5hex fp content,
      c.chunk_type = "function_preview" ∧ c.detail_level = 3 ∧ 0 ≤ c.start_line) ∧
    (∀ c ∈ level4_function_chunks md5hex fp content,
      c.chunk_type = "function_full" ∧ c.detail_level = 4 ∧ 0 ≤ c.start_line) ∧
    (∀ c ∈ windowChunksSpec md5hex fp lines chunk_size,
      c.chunk_type = "code_block" ∧ c.detail_level = 4 ∧ 0 ≤ c.start_line) := by
  refine ⟨?_, ?_, ?_, ?_⟩
  · intro c hc
    obtain ⟨m, _, hty, hlvl, _, _, _, hst, _⟩ := mem_create_level2 hc
    exact ⟨hty, hlvl, by rw [hst]; exact Int.ofNat_nonneg _⟩
  · intro c hc
    rw [create_level3_chunks] at hc
    obtain ⟨m, _, hc⟩ := List.mem_filterMap.mp hc
    obtain ⟨hty, hlvl, _, _, hst, _⟩ := level3_chunk_facts hc
    exact ⟨hty, hlvl, by rw [hst]; exact Int.ofNat_nonneg _⟩
  · intro c hc
    rw [level4_function_chunks] at hc
    obtain ⟨m, _, hc⟩ := List.mem_filterMap.mp hc
    obtain ⟨hty, hlvl, _, _, hst, _⟩ := level4_function_chunk_facts hc
    exact ⟨hty, hlvl, by rw [hst]; exact Int.ofNat_nonneg _⟩
  · intro c hc
    obtain ⟨i, hi, rfl, _⟩ := mem_windowChunksSpec hc
    obtain ⟨hty, hlvl, _, _, _, hst, _, _⟩ :=
      window_chunk_fields md5hex fp lines chunk_size ((i : Int) * ((chunk_size : Int) - 10)) i
    refine ⟨hty, hlvl, by
      rw [hst]
      exact mul_nonneg (Int.ofNat_nonneg i) (by omega)⟩

/-- C10: chunks are returned grouped by nondecreasing detail level (Level 0,
then 1, 2, 3, 4), with all Level-4 `function_full` chunks before all Level-4
`code_block` window chunks; within each group, chunks appear in text order —
their start lines are nondecreasing (matches are found left to right, and
window positions grow by the stride). -/
theorem chunks_ordered {md5hex : String → String} {fp contentS : String}
    {chunk_size : Nat} {chunks : List Chunk}
    (hall : create_all_chunks md5hex fp contentS chunk_size = some chunks) :
    (chunks.map (fun c => c.detail_level)).Pairwise (· ≤ ·) ∧
    chunks.Pairwise (fun a b =>
      a.chunk_type = "code_block" → b.chunk_type ≠ "function_full") ∧
    ((chunks.filter (fun c => decide (c.chunk_type = "class_summary"))).map
      (fun c => c.start_line)).Pairwise (· ≤ ·) ∧
    ((chunks.filter (fun c => decide (c.chunk_type = "function_preview"))).map
      (fun c => c.start_line)).Pairwise (· ≤ ·) ∧
    ((chunks.filter (fun c => decide (c.chunk_type = "function_full"))).map
      (fun c => c.start_line)).Pairwise (· ≤ ·) ∧
    ((chunks.filter (fun c => decide (c.chunk_type = "code_block"))).map
      (fun c => c.start_line)).Pairwise (· ≤ ·) := by
  obtain ⟨hcs, hform⟩ := create_all_some hall
  obtain ⟨hG2, hG3, hG4, hGW⟩ := group_facts md5hex fp contentS.toList
    (splitNl contentS.toList) chunk_size hcs
  have hL2sorted : (create_level2_chunks md5hex fp contentS.toList).Pairwise
      (fun a b => a.start_line ≤ b.start_line) := by
    rw [create_level2_chunks, List.pairwise_map]
    refine List.Pairwise.imp ?_ (pairwise_finditerF _ _ _)
    intro a b hab
    show ((countNl (contentS.toList.take a.1) : Nat) : Int) ≤
      ((countNl (contentS.toList.take b.1) : Nat) : Int)
    exact_mod_cast countNl_take_mono _ (le_of_lt hab)
  have hL3sorted : (create_level3_chunks md5hex fp contentS.toList).Pairwise
      (fun a b => a.start_line ≤ b.start_line) := by
    rw [create_level3_chunks]
    refine pairwise_filterMap_of _ ?_ (pairwise_finditerF _ _ _)
    intro a b hab x hx y hy
    rw [(level3_chunk_facts hx).2.2.2.2.1, (level3_chunk_facts hy).2.2.2.2.1]
    exact_mod_cast countNl_take_mono _ (le_of_lt hab)
  have hL4sorted : (level4_function_chunks md5hex fp contentS.toList).Pairwise
      (fun a b => a.start_line ≤ b.start_line) := by
    rw [level4_function_chunks]
    refine pairwise_filterMap_of _ ?_ (pairwise_finditerF _ _ _)
    intro a b hab x hx y hy
    rw [(level4_function_chunk_facts hx).2.2.2.2.1,
      (level4_function_chunk_facts hy).2.2.2.2.1]
    exact_mod_cast countNl_take_mono _ (le_of_lt hab)
  have hWsorted : (windowChunksSpec md5hex fp (splitNl contentS.toList)
      chunk_size).Pairwise (fun a b => a.start_line ≤ b.start_line) := by
    rw [windowChunksSpec]
    refine pairwise_filterMap_of _ ?_ (List.pairwise_lt_range _)
    intro a b hab x hx y hy
    rw [windowEmit_some hx, windowEmit_some hy]
    show ((a : Int) * ((chunk_size : Int) - 10)) ≤ ((b : Int) * ((chunk_size : Int) - 10))
    exact mul_le_mul_of_nonneg_right (by exact_mod_cast le_of_lt hab) (by omega)
  have master : chunks.Pairwise (fun a b =>
      a.detail_level ≤ b.detail_level ∧
      (a.chunk_type = "code_block" → b.chunk_type ≠ "function_full") ∧
      (a.chunk_type = b.chunk_type → a.start_line ≤ b.start_line)) := by
    rw [hform]
    have hmemrest : ∀ b ∈ create_level2_chunks md5hex fp contentS.toList ++
        create_level3_chunks md5hex fp contentS.toList ++
        (level4_function_chunks md5hex fp contentS.toList ++
         windowChunksSpec md5hex fp (splitNl contentS.toList) chunk_size),
        2 ≤ b.detail_level ∧ b.chunk_type ≠ "file_summary" ∧
        b.chunk_type ≠ "file_overview" ∧ b.chunk_type ≠ "code_block" ∨
        2 ≤ b.detail_level ∧ b.chunk_type = "code_block" := by
      intro b hb
      rcases List.mem_append.mp hb with hb | hb
      · rcases List.mem_append.mp hb with hb | hb
        · obtain ⟨hty, hlvl, _⟩ := hG2 b hb
          exact Or.inl ⟨by omega, by rw [hty]; decide, by rw [hty]; decide,
            by rw [hty]; decide⟩
        · obtain ⟨hty, hlvl, _⟩ := hG3 b hb
          exact Or.inl ⟨by omega, by rw [hty]; decide, by rw [hty]; decide,
            by rw [hty]; decide⟩
      · rcases List.mem_append.mp hb with hb | hb
        · obtain ⟨hty, hlvl, _⟩ := hG4 b hb
          exact Or.inl ⟨by omega, by rw [hty]; decide, by rw [hty]; decide,
            by rw [hty]; decide⟩
        · obtain ⟨hty, hlvl, _⟩ := hGW b hb
          exact Or.inr ⟨by omega, hty⟩
    obtain ⟨hty0, hlvl0, hst0, _⟩ :=
      level0_fields md5hex fp (extract_metadata contentS.toList)
    obtain ⟨hty1, hlvl1, hst1, _⟩ :=
      level1_fields md5hex fp contentS.toList (extract_metadata contentS.toList)
    rw [List.pairwise_cons]
    constructor
    · intro b hb
      refine ⟨by rw [hlvl0]; omega,
        fun h => absurd (hty0.symm.trans h) (by decide), fun h => ?_⟩
      rcases List.mem_cons.mp hb with rfl | hb
      · rw [hst0, hst1]
      · rcases hmemrest b hb with ⟨_, hne, _, _⟩ | ⟨_, hcb⟩
        · exact absurd (h.symm.trans hty0) hne
        · exact absurd (hty0.symm.trans (h.trans hcb)) (by decide)
    rw [List.pairwise_cons]
    constructor
    · intro b hb
      refine ⟨?_, fun h => absurd (hty1.symm.trans h) (by decide), fun h => ?_⟩
      · rcases hmemrest b hb with ⟨h2, _⟩ | ⟨h2, _⟩ <;> omega
      · rcases hmemrest b hb with ⟨_, _, hne, _⟩ | ⟨_, hcb⟩
        · exact absurd (h.symm.trans hty1) hne
        · exact absurd (hty1.symm.trans (h.trans hcb)) (by decide)
    rw [List.pairwise_append]
    refine ⟨?_, ?_, ?_⟩
    · rw [List.pairwise_append]
      refine ⟨?_, ?_, ?_⟩
      · refine hL2sorted.imp_of_mem (fun ha hb hs => ?_)
        obtain ⟨htya, hlvla, _⟩ := hG2 _ ha
        obtain ⟨htyb, hlvlb, _⟩ := hG2 _ hb
        exact ⟨by omega, fun h => absurd (htya.symm.trans h) (by decide),
          fun _ => hs⟩
      · refine hL3sorted.imp_of_mem (fun ha hb hs => ?_)
        obtain ⟨htya, hlvla, _⟩ := hG3 _ ha
        obtain ⟨htyb, hlvlb, _⟩ := hG3 _ hb
        exact ⟨by omega, fun h => absurd (htya.symm.trans h) (by decide),
          fun _ => hs⟩
      · intro a ha b hb
        obtain ⟨htya, hlvla, _⟩ := hG2 _ ha
        obtain ⟨htyb, hlvlb, _⟩ := hG3 _ hb
        exact ⟨by omega, fun h => absurd (htya.symm.trans h) (by decide),
          fun h => absurd (htya.symm.trans (h.trans htyb)) (by decide)⟩
    · rw [List.pairwise_append]
      refine ⟨?_, ?_, ?_⟩
      · refine hL4sorted.imp_of_mem (fun ha hb hs => ?_)
        obtain ⟨htya, hlvla, _⟩ := hG4 _ ha
        obtain ⟨htyb, hlvlb, _⟩ := hG4 _ hb
        exact ⟨by omega, fun h => absurd (htya.symm.trans h) (by decide),
          fun _ => hs⟩
      · refine hWsorted.imp_of_mem (fun ha hb hs => ?_)
        obtain ⟨htya, hlvla, _⟩ := hGW _ ha
        obtain ⟨htyb, hlvlb, _⟩ := hGW _ hb
        exact ⟨by omega, fun _ => by rw [htyb]; decide, fun _ => hs⟩
      · intro a ha b hb
        obtain ⟨htya, hlvla, _⟩ := hG4 _ ha
        obtain ⟨htyb, hlvlb, _⟩ := hGW _ hb
        exact ⟨by omega, fun h => absurd (htya.symm.trans h) (by decide),
          fun h => absurd (htya.symm.trans (h.trans htyb)) (by decide)⟩
    · intro a ha b hb
      have htya2 : a.chunk_type = "class_summary" ∨ a.chunk_type = "function_preview" := by
        rcases List.mem_append.mp ha with ha | ha
        · exact Or.inl (hG2 _ ha).1
        · exact Or.inr (hG3 _ ha).1
      have hlvla : a.detail_level ≤ 3 := by
        rcases List.mem_append.mp ha with ha | ha
        · have := (hG2 _ ha).2.1; omega
        · have := (hG3 _ ha).2.1; omega
      have htyb2 : b.chunk_type = "function_full" ∨ b.chunk_type = "code_block" := by
        rcases List.mem_append.mp hb with hb | hb
        · exact Or.inl (hG4 _ hb).1
        · exact Or.inr (hGW _ hb).1
      have hlvlb : b.detail_level = 4 := by
        rcases List.mem_append.mp hb with hb | hb
        · exact (hG4 _ hb).2.1
        · exact (hGW _ hb).2.1
      refine ⟨by omega, fun h => ?_, fun h => ?_⟩
      · rcases htya2 with hty | hty <;>
          exact absurd (hty.symm.trans h) (by decide)
      · rcases htya2 with hty | hty <;> rcases htyb2 with htyb | htyb <;>
          exact absurd (hty.symm.trans (h.trans htyb)) (by decide)
  refine ⟨?_, master.imp (fun h => h.2.1), ?_, ?_, ?_, ?_⟩
  · rw [List.pairwise_map]
    exact master.imp (fun h => h.1)
  · rw [List.pairwise_map]
    refine (master.filter _).imp_of_mem (fun ha hb hr => ?_)
    have hta := of_decide_eq_true (List.mem_filter.mp ha).2
    have htb := of_decide_eq_true (List.mem_filter.mp hb).2
    exact hr.2.2 (hta.trans htb.symm)
  · rw [List.pairwise_map]
    refine (master.filter _).imp_of_mem (fun ha hb hr => ?_)
    have hta := of_decide_eq_true (List.mem_filter.mp ha).2
    have htb := of_decide_eq_true (List.mem_filter.mp hb).2
    exact hr.2.2 (hta.trans htb.symm)
  · rw [List.pairwise_map]
    refine (master.filter _).imp_of_mem (fun ha hb hr => ?_)
    have hta := of_decide_eq_true (List.mem_filter.mp ha).2
    have htb := of_decide_eq_true (List.mem_filter.mp hb).2
    exact hr.2.2 (hta.trans htb.symm)
  · rw [List.pairwise_map]
    refine (master.filter _).imp_of_mem (fun ha hb hr => ?_)
    have hta := of_decide_eq_true (List.mem_filter.mp ha).2
    have htb := of_decide_eq_true (List.mem_filter.mp hb).2
    exact hr.2.2 (hta.trans htb.symm)

theorem chunks_ordered_witness :
    ((((create_all_chunks identityHash "o.cpp" "x" 50).getD []).map
      (fun c => c.detail_level)).Pairwise (· ≤ ·)) ∧
    ((create_all_chunks identityHash "o.cpp" "x" 50).getD []).Pairwise (fun a b =>
      a.chunk_type = "code_block" → b.chunk_type ≠ "function_full") ∧
    ((((create_all_chunks identityHash "o.cpp" "x" 50).getD []).filter
      (fun c => decide (c.chunk_type = "class_summary"))).map
        (fun c => c.start_line)).Pairwise (· ≤ ·) ∧
    ((((create_all_chunks identityHash "o.cpp" "x" 50).getD []).filter
      (fun c => decide (c.chunk_type = "function_preview"))).map
        (fun c => c.start_line)).Pairwise (· ≤ ·) ∧
    ((((create_all_chunks identityHash "o.cpp" "x" 50).getD []).filter
      (fun c => decide (c.chunk_type = "function_full"))).map
        (fun c => c.start_line)).Pairwise (· ≤ ·) ∧
    ((((create_all_chunks identityHash "o.cpp" "x" 50).getD []).filter
      (fun c => decide (c.chunk_type = "code_block"))).map
        (fun c => c.start_line)).Pairwise (· ≤ ·) :=
  @chunks_ordered identityHash "o.cpp" "x" 50
    ((create_all_chunks identityHash "o.cpp" "x" 50).getD []) (by decide)

end CwVDB
